import Mathlib

/-!
# Verification of the knowledge-base / notes manager (`src/app.py`)

A shallow embedding of the tree / cache / mutation / search logic of the
Flask application in `src/app.py`, together with theorems settling the
specification's claims about it.

Modelling conventions:
* Python strings are modelled as `List Char` (`Str`); `str.lower` is modelled
  per-character (ASCII case mapping), `html.escape` character-wise.
* Database ids and timestamps are modelled as `Int` (SQLite integers);
  `datetime.now()` is passed in as an explicit `now : Int` parameter.
* The node table and the history table are lists (`Store`); SQLAlchemy's
  `Query.get` is `List.find?` on the id.  Autoincrement ids are `max + 1`.
* JSON payloads stored in `History.content` are modelled by their abstract
  shape (`HContent`): a JSON object with the snapshot's optional fields,
  a valid-but-not-an-object document, a non-empty unparsable string, or a
  falsy value (`None` / `""`).  `json.dumps`/`json.loads` round-trip.
* `with db.session.begin_nested()` blocks: an exception raised inside the
  block rolls the savepoint back; a plain early `return` (the error returns
  in the handlers) exits the context manager normally, which releases the
  savepoint, keeping mutations made before the return.
-/

set_option maxRecDepth 10000

namespace KBApp

/-- Python strings, modelled as lists of characters. -/
abbrev Str := List Char

/-- The whitespace characters stripped by Python's `str.strip()` (ASCII part). -/
def pySpace (c : Char) : Bool :=
  c = ' ' || c = '\t' || c = '\n' || c = '\r' || c = Char.ofNat 11 || c = Char.ofNat 12

/-- Python `str.strip()`. -/
def pyStrip (s : Str) : Str :=
  ((s.dropWhile pySpace).reverse.dropWhile pySpace).reverse

/-- Python `str.lower()` (ASCII case mapping). -/
def toLowerStr (s : Str) : Str := s.map Char.toLower

/-- `html.escape(c)` for a single character (quote=True: also escapes quotes). -/
def escapeChar (c : Char) : Str :=
  if c = '&' then "&amp;".data
  else if c = '<' then "&lt;".data
  else if c = '>' then "&gt;".data
  else if c = '"' then "&quot;".data
  else if c = Char.ofNat 39 then "&#x27;".data
  else [c]

/-- `html.escape(text)` (the body of `escape_html` in `src/app.py` for a
non-`None` argument). -/
def escapeHtml (s : Str) : Str := s.flatMap escapeChar

/-- `escape_html(text)`: `''` for `None` is handled at call sites; every call
in the modelled code passes a string, so this is `escapeHtml`. -/
def escape_html (s : Str) : Str := escapeHtml s

/-- `sanitize_input` from `src/app.py`.  The function first html-escapes the
text and then runs regex removals of patterns such as `<script ...>...</script>`
on the escaped text.  The escaped text contains no `<` character at all
(see `escapeHtml_no_lt`), so the removal pass never matches and the function
is `html.escape`. -/
def sanitize_input (s : Str) : Str := escapeHtml s

theorem escapeHtml_no_lt (s : Str) : '<' ∉ escapeHtml s := by
  intro hmem
  rw [escapeHtml, List.mem_flatMap] at hmem
  obtain ⟨c, _, hc⟩ := hmem
  rw [escapeChar] at hc
  split at hc
  · exact absurd hc (by decide)
  · split at hc
    · exact absurd hc (by decide)
    · split at hc
      · exact absurd hc (by decide)
      · split at hc
        · exact absurd hc (by decide)
        · split at hc
          · exact absurd hc (by decide)
          · rename_i h1 h2 h3 h4 h5
            simp at hc
            subst hc
            exact h2 rfl

/-- Substring test: does `s` contain `pat` as a contiguous sublist?
(Python's `pat in s`.) -/
def containsSub (s pat : Str) : Bool :=
  match s with
  | [] => pat.isEmpty
  | _ :: t => pat.isPrefixOf s || containsSub t pat

/-- Case-insensitive substring test, `keyword.lower() in text.lower()`. -/
def occursCI (s pat : Str) : Bool := containsSub (toLowerStr s) (toLowerStr pat)

/-! ## The node cache (`node_cache`, `get_cached_node`, `set_cached_node`,
`clear_node_cache`)

The cache is a Python dict mapping string keys to `(data, timestamp)` pairs.
A dict is modelled as a list of entries in insertion order with distinct keys;
overwriting a key keeps its position, inserting a fresh key appends.  The
cached payload type is opaque (`α`); timestamps are `Int` seconds. -/

/-- A cache entry: key, payload, insertion timestamp. -/
abbrev Cache (α : Type) := List (String × α × Int)

/-- `CACHE_TIMEOUT = 5` seconds. -/
def CACHE_TIMEOUT : Int := 5

/-- `node_id in node_cache` / `node_cache[node_id]` lookup. -/
def lookupC {α : Type} (c : Cache α) (k : String) : Option (α × Int) :=
  (c.find? (fun e => e.1 = k)).map (fun e => e.2)

/-- `get_cached_node`: return the payload only if its age is `< CACHE_TIMEOUT`. -/
def get_cached_node {α : Type} (c : Cache α) (now : Int) (k : String) : Option α :=
  match lookupC c k with
  | some (v, ts) => if now - ts < CACHE_TIMEOUT then some v else none
  | none => none

/-- `node_cache[node_id] = (data, datetime.now())`: dict assignment.
An existing key keeps its position in iteration order; a fresh key appends. -/
def dictInsert {α : Type} (c : Cache α) (k : String) (v : α) (ts : Int) : Cache α :=
  if c.any (fun e => e.1 = k) then
    c.map (fun e => if e.1 = k then (k, v, ts) else e)
  else c ++ [(k, v, ts)]

/-- The fold underlying `min(node_cache.keys(), key=lambda k: node_cache[k][1])`:
keys are iterated in insertion order and `min` keeps the first entry on ties. -/
def minTsEntry {α : Type} (e : String × α × Int) (rest : Cache α) : String × α × Int :=
  rest.foldl (fun best f => if f.2.2 < best.2.2 then f else best) e

/-- The key of the oldest cache entry (first such key on timestamp ties). -/
def oldestKey {α : Type} : Cache α → String
  | [] => ""
  | e :: rest => (minTsEntry e rest).1

/-- `del node_cache[k]`: remove the entry with key `k` (dicts hold one entry
per key; on the list model this removes the first occurrence). -/
def eraseKey {α : Type} : Cache α → String → Cache α
  | [], _ => []
  | e :: t, k => if e.1 = k then t else e :: eraseKey t k

/-- `set_cached_node`: store/overwrite, then evict the single oldest entry if
the cache now holds more than 100 entries. -/
def set_cached_node {α : Type} (c : Cache α) (k : String) (v : α) (ts : Int) :
    Cache α :=
  let c' := dictInsert c k v ts
  if 100 < c'.length then eraseKey c' (oldestKey c') else c'

theorem lookup_dictInsert {α : Type} (c : Cache α) (k : String) (v : α) (ts : Int) :
    lookupC (dictInsert c k v ts) k = some (v, ts) := by
  induction c with
  | nil => simp [dictInsert, lookupC]
  | cons e t ih =>
    by_cases he : e.1 = k
    · simp [dictInsert, lookupC, he, List.find?]
    · by_cases ht : t.any (fun f => f.1 = k)
      · have : (e :: t).any (fun f => f.1 = k) = true := by
          simp [List.any_cons, ht]
        simp only [dictInsert, this, if_true, List.map_cons, if_neg he]
        simp only [dictInsert, ht, if_true] at ih
        simpa [lookupC, List.find?, he] using ih
      · have : (e :: t).any (fun f => f.1 = k) = false := by
          simp only [List.any_cons, Bool.or_eq_false_iff]
          exact ⟨by simpa using he, Bool.eq_false_iff.mpr ht⟩
        simp only [dictInsert, this, Bool.false_eq_true, if_false, List.cons_append]
        simp only [dictInsert, ht, Bool.false_eq_true, if_false] at ih
        simpa [lookupC, List.find?, he] using ih

theorem minTsEntry_mem {α : Type} (e : String × α × Int) (rest : Cache α) :
    minTsEntry e rest ∈ e :: rest := by
  induction rest generalizing e with
  | nil => simp [minTsEntry]
  | cons f t ih =>
    rw [minTsEntry, List.foldl_cons]
    by_cases h : f.2.2 < e.2.2
    · rw [if_pos h]
      have hmem := ih f
      rw [minTsEntry] at hmem
      rcases List.mem_cons.mp hmem with h' | h'
      · rw [h']
        exact List.mem_cons_of_mem e (List.mem_cons_self f t)
      · exact List.mem_cons_of_mem e (List.mem_cons_of_mem f h')
    · rw [if_neg h]
      have hmem := ih e
      rw [minTsEntry] at hmem
      rcases List.mem_cons.mp hmem with h' | h'
      · rw [h']
        exact List.mem_cons_self e (f :: t)
      · exact List.mem_cons_of_mem e (List.mem_cons_of_mem f h')

theorem minTsEntry_le {α : Type} (e : String × α × Int) (rest : Cache α) :
    (minTsEntry e rest).2.2 ≤ e.2.2 ∧
      ∀ f ∈ rest, (minTsEntry e rest).2.2 ≤ f.2.2 := by
  induction rest generalizing e with
  | nil => exact ⟨le_refl _, by simp⟩
  | cons f t ih =>
    rw [minTsEntry, List.foldl_cons]
    by_cases h : f.2.2 < e.2.2
    · rw [if_pos h]
      have hle := ih f
      rw [minTsEntry] at hle
      refine ⟨le_trans hle.1 (le_of_lt h), ?_⟩
      intro g hg
      rcases List.mem_cons.mp hg with hg' | hg'
      · rw [hg']
        exact hle.1
      · exact hle.2 g hg'
    · rw [if_neg h]
      have hle := ih e
      rw [minTsEntry] at hle
      refine ⟨hle.1, ?_⟩
      intro g hg
      rcases List.mem_cons.mp hg with hg' | hg'
      · rw [hg']
        exact le_trans hle.1 (le_of_not_lt h)
      · exact hle.2 g hg'

theorem minTsEntry_append_ge {α : Type} (e : String × α × Int) (rest : Cache α)
    (x : String × α × Int) (hx : (minTsEntry e rest).2.2 ≤ x.2.2) :
    minTsEntry e (rest ++ [x]) = minTsEntry e rest := by
  simp only [minTsEntry] at hx ⊢
  rw [List.foldl_append, List.foldl_cons, List.foldl_nil, if_neg (not_lt.mpr hx)]

theorem eraseKey_append_of_mem {α : Type} (c d : Cache α) (k : String)
    (h : k ∈ c.map (fun e => e.1)) :
    eraseKey (c ++ d) k = eraseKey c k ++ d := by
  induction c with
  | nil => simp at h
  | cons e t ih =>
    by_cases he : e.1 = k
    · simp [eraseKey, he]
    · have hk : k ∈ t.map (fun f => f.1) := by
        rcases List.mem_map.mp h with ⟨f, hf, hfk⟩
        rcases List.mem_cons.mp hf with hf' | hf'
        · exact absurd (hf' ▸ hfk) he
        · exact List.mem_map.mpr ⟨f, hf', hfk⟩
      simp [eraseKey, he, ih hk]

theorem eraseKey_keys_subset {α : Type} (c : Cache α) (q : String) :
    ((eraseKey c q).map (fun e => e.1)) ⊆ c.map (fun e => e.1) := by
  induction c with
  | nil => simp [eraseKey]
  | cons e t ih =>
    by_cases he : e.1 = q
    · rw [eraseKey, if_pos he]
      intro x hx
      rcases List.mem_map.mp hx with ⟨f, hf, hfx⟩
      exact List.mem_map.mpr ⟨f, List.mem_cons_of_mem e hf, hfx⟩
    · rw [eraseKey, if_neg he]
      intro x hx
      rcases List.mem_map.mp hx with ⟨f, hf, hfx⟩
      rcases List.mem_cons.mp hf with hf' | hf'
      · exact List.mem_map.mpr ⟨f, hf' ▸ List.mem_cons_self e t, hfx⟩
      · exact List.mem_cons_of_mem _ (ih (List.mem_map.mpr ⟨f, hf', hfx⟩))

theorem lookupC_none_of_not_mem {α : Type} (c : Cache α) (k : String)
    (h : k ∉ c.map (fun e => e.1)) : lookupC c k = none := by
  induction c with
  | nil => rfl
  | cons e t ih =>
    have he : ¬ e.1 = k := fun hc => h (List.mem_map.mpr ⟨e, List.mem_cons_self e t, hc⟩)
    have ht : k ∉ t.map (fun f => f.1) := fun hc => h (by
      rcases List.mem_map.mp hc with ⟨f, hf, hfx⟩
      exact List.mem_map.mpr ⟨f, List.mem_cons_of_mem e hf, hfx⟩)
    simpa [lookupC, List.find?, he] using ih ht

theorem keys_any_iff {α : Type} (c : Cache α) (k : String) :
    (c.any (fun e => e.1 = k)) = true ↔ k ∈ c.map (fun e => e.1) := by
  simp [List.any_eq_true]

theorem eraseKey_length {α : Type} (c : Cache α) (k : String)
    (h : k ∈ c.map (fun e => e.1)) :
    (eraseKey c k).length + 1 = c.length := by
  induction c with
  | nil => simp at h
  | cons e t ih =>
    by_cases he : e.1 = k
    · simp [eraseKey, he]
    · have hk : k ∈ t.map (fun f => f.1) := by
        rcases List.mem_map.mp h with ⟨f, hf, hfk⟩
        rcases List.mem_cons.mp hf with hf' | hf'
        · exact absurd (hf' ▸ hfk) he
        · exact List.mem_map.mpr ⟨f, hf', hfk⟩
      simp [eraseKey, he, ih hk]

theorem set_cached_node_evict {α : Type} (c : Cache α) (k : String) (v : α) (t : Int)
    (hlen : c.length = 100) (hk : k ∉ c.map (fun e => e.1))
    (hts : ∀ e ∈ c, e.2.2 ≤ t) :
    ∃ old ∈ c, (∀ e ∈ c, old.2.2 ≤ e.2.2) ∧ old.1 ∈ c.map (fun e => e.1) ∧
      set_cached_node c k v t = eraseKey c old.1 ++ [(k, v, t)] := by
  obtain ⟨e, rest, rfl⟩ : ∃ e rest, c = e :: rest := by
    cases c with
    | nil => simp at hlen
    | cons e rest => exact ⟨e, rest, rfl⟩
  have hoin : minTsEntry e rest ∈ e :: rest := minTsEntry_mem e rest
  have hokeys : (minTsEntry e rest).1 ∈ (e :: rest).map (fun f => f.1) :=
    List.mem_map.mpr ⟨minTsEntry e rest, hoin, rfl⟩
  refine ⟨minTsEntry e rest, hoin, ?_, hokeys, ?_⟩
  · intro g hg
    rcases List.mem_cons.mp hg with h' | h'
    · rw [h']
      exact (minTsEntry_le e rest).1
    · exact (minTsEntry_le e rest).2 g h'
  · have hany : ((e :: rest).any (fun f => f.1 = k)) = false :=
      Bool.eq_false_iff.mpr (fun hc => hk ((keys_any_iff _ _).mp hc))
    have hins : dictInsert (e :: rest) k v t = (e :: rest) ++ [(k, v, t)] := by
      rw [dictInsert, hany]
      simp
    have hmin : (minTsEntry e rest).2.2 ≤ t := hts _ hoin
    have holdest : oldestKey ((e :: rest) ++ [(k, v, t)]) = (minTsEntry e rest).1 := by
      show (minTsEntry e (rest ++ [(k, v, t)])).1 = _
      rw [minTsEntry_append_ge e rest _ hmin]
    have hlen' : 100 < ((e :: rest) ++ [(k, v, t)]).length := by
      simp only [List.length_append, List.length_cons, List.length_nil] at hlen ⊢
      omega
    simp only [set_cached_node]
    rw [hins, if_pos hlen', holdest,
      eraseKey_append_of_mem (e :: rest) [(k, v, t)] _ hokeys]

theorem get_after_fresh_append {α : Type} (c : Cache α) (k : String) (v : α)
    (t now : Int) (hk : k ∉ c.map (fun e => e.1)) :
    get_cached_node (c ++ [(k, v, t)]) now k =
      if now - t < 5 then some v else none := by
  have hany : (c.any (fun f => f.1 = k)) = false :=
    Bool.eq_false_iff.mpr (fun hc => hk ((keys_any_iff _ _).mp hc))
  have hins : dictInsert c k v t = c ++ [(k, v, t)] := by
    rw [dictInsert, hany]
    simp
  rw [← hins]
  simp [get_cached_node, lookup_dictInsert c k v t, CACHE_TIMEOUT]

/-- **C4.** For every key `k` and value `v`, after `set_cached_node(k, v)` with
no intervening cache operation on `k`, `get_cached_node(k)` returns `v` at any
time strictly less than `5` seconds after the set and returns absent (`none`)
once `5` or more seconds have elapsed; and whenever a single set pushes the
entry count over `100` (the cache held `100` entries and `k` is fresh), exactly
one entry is evicted, namely one with the oldest insertion timestamp.
The hypotheses: the cache currently respects the 100-entry bound maintained by
`set_cached_node`, and existing timestamps are not in the future of the set
(`datetime.now()` is monotone). -/
theorem c4_cache_ttl_and_eviction :
    (∀ (α : Type) (c : Cache α) (k : String) (v : α) (t now : Int),
      c.length ≤ 100 → (∀ e ∈ c, e.2.2 ≤ t) →
      get_cached_node (set_cached_node c k v t) now k =
        if now - t < 5 then some v else none) ∧
    (∀ (α : Type) (c : Cache α) (k : String) (v : α) (t : Int),
      c.length = 100 → k ∉ c.map (fun e => e.1) → (∀ e ∈ c, e.2.2 ≤ t) →
      ∃ old ∈ c, (∀ e ∈ c, old.2.2 ≤ e.2.2) ∧
        set_cached_node c k v t = eraseKey c old.1 ++ [(k, v, t)] ∧
        (set_cached_node c k v t).length = 100) := by
  constructor
  · intro α c k v t now hlen hts
    by_cases hk : k ∈ c.map (fun e => e.1)
    · have hins : dictInsert c k v t =
          c.map (fun e => if e.1 = k then (k, v, t) else e) := by
        rw [dictInsert, if_pos ((keys_any_iff c k).mpr hk)]
      have hlen2 : (dictInsert c k v t).length = c.length := by
        rw [hins]
        simp
      have hnoev : ¬ 100 < (dictInsert c k v t).length := by omega
      simp only [set_cached_node]
      rw [if_neg hnoev]
      simp [get_cached_node, lookup_dictInsert c k v t, CACHE_TIMEOUT]
    · have hins : dictInsert c k v t = c ++ [(k, v, t)] := by
        rw [dictInsert,
          if_neg (by simp [Bool.eq_false_iff.mpr
            (fun hc => hk ((keys_any_iff _ _).mp hc))])]
      rcases Nat.lt_or_ge c.length 100 with hc | hc
      · have hnoev : ¬ 100 < (dictInsert c k v t).length := by
          rw [hins]
          simp
          omega
        simp only [set_cached_node]
        rw [if_neg hnoev]
        simp [get_cached_node, lookup_dictInsert c k v t, CACHE_TIMEOUT]
      · have hlen100 : c.length = 100 := le_antisymm hlen hc
        obtain ⟨old, hold, _, _, heq⟩ := set_cached_node_evict c k v t hlen100 hk hts
        rw [heq]
        exact get_after_fresh_append _ k v t now
          (fun hc' => hk (eraseKey_keys_subset c old.1 hc'))
  · intro α c k v t hlen hk hts
    obtain ⟨old, hold, hmin, hokeys, heq⟩ := set_cached_node_evict c k v t hlen hk hts
    refine ⟨old, hold, hmin, heq, ?_⟩
    rw [heq]
    have := eraseKey_length c old.1 hokeys
    simp only [List.length_append, List.length_cons, List.length_nil]
    omega

/-- A concrete full cache for the C4 witness: 100 entries with distinct keys
`"0"`, …, `"99"` and increasing timestamps. -/
def c4cache : Cache Nat := (List.range 100).map (fun i => (toString i, 0, (i : Int)))

/-- Witness for `c4_cache_ttl_and_eviction` at a concrete input. -/
theorem c4_cache_witness :
    get_cached_node (set_cached_node c4cache "fresh" 7 200) 204 "fresh" = some 7 ∧
    get_cached_node (set_cached_node c4cache "fresh" 7 200) 205 "fresh" = none ∧
    ∃ old ∈ c4cache, (∀ e ∈ c4cache, old.2.2 ≤ e.2.2) ∧
      set_cached_node c4cache "fresh" 7 200 =
        eraseKey c4cache old.1 ++ [("fresh", 7, 200)] ∧
      (set_cached_node c4cache "fresh" 7 200).length = 100 := by
  refine ⟨?_, ?_, ?_⟩
  · have h := c4_cache_ttl_and_eviction.1 Nat c4cache "fresh" 7 200 204
      (by decide) (by decide)
    rw [h]
    norm_num
  · have h := c4_cache_ttl_and_eviction.1 Nat c4cache "fresh" 7 200 205
      (by decide) (by decide)
    rw [h]
    norm_num
  · exact c4_cache_ttl_and_eviction.2 Nat c4cache "fresh" 7 200
      (by decide) (by decide) (by decide)

/-! ## Data model (`Node`, `History`, the store)

`Node.type` is the Python `type` column (`'folder'` / `'note'`); `tags` is the
comma-joined string column; `custom_modules` is the JSON list column, its
entries opaque (`Str`).  `History.content` is a stored JSON document, modelled
by its abstract shape (`HContent`). -/

/-- A tags value as it appears inside a JSON payload: a list, a string, an
object (`vdict`, carrying its keys — iterating a Python dict yields its
keys), or a non-iterable JSON value (`vother`: number/bool/null; Python
`isinstance` dispatch). -/
inductive TagsVal where
  | vlist (l : List Str)
  | vstr (s : Str)
  | vdict (keys : List Str)
  | vother
deriving DecidableEq, Repr

/-- The fields a JSON-object history snapshot may carry (`old_data.get(...)`
returns `none` for a missing key). -/
structure SnapDict where
  title : Option Str
  usage : Option Str
  code_snippet : Option Str
  tags : Option TagsVal
  custom_modules : Option (List Str)
deriving DecidableEq, Repr

/-- The abstract shape of the JSON text stored in `History.content`:
* `empty` — `None` or `""` (falsy; `json.loads` would fail on it),
* `malformed` — non-empty text that `json.loads` rejects,
* `nonObject` — valid JSON that is not an object (`.get` raises),
* `obj d` — a JSON object with the snapshot fields `d`. -/
inductive HContent where
  | empty
  | malformed
  | nonObject
  | obj (d : SnapDict)
deriving DecidableEq, Repr

/-- A row of the `node` table. -/
structure Node where
  id : Int
  parent_id : Option Int
  title : Str
  type : Str
  usage : Str
  code_snippet : Str
  custom_modules : List Str
  is_expanded : Bool
  tags : Str
  is_favorite : Bool
  created_at : Int
  updated_at : Int
deriving DecidableEq, Repr

/-- A row of the `history` table. -/
structure History where
  id : Int
  note_id : Int
  title : Str
  content : HContent
  created_at : Int
deriving DecidableEq, Repr

/-- The relational store: the two tables. -/
structure Store where
  nodes : List Node
  history : List History
deriving DecidableEq, Repr

/-- `Node.query.get(i)`. -/
def findNode (s : Store) (i : Int) : Option Node :=
  s.nodes.find? (fun n => n.id = i)

/-- `History.query.get(i)`. -/
def findHistory (s : Store) (i : Int) : Option History :=
  s.history.find? (fun h => h.id = i)

/-- SQLite autoincrement: one more than the largest node id ever used
(no ids are reused in the modelled runs). -/
def nextNodeId (s : Store) : Int := 1 + s.nodes.foldl (fun m n => max m n.id) 0

/-- Autoincrement for history rows. -/
def nextHistId (s : Store) : Int := 1 + s.history.foldl (fun m h => max m h.id) 0

/-- `self.tags.split(',') if self.tags else []`. -/
def splitTags (t : Str) : List Str := if t = [] then [] else t.splitOn ','

/-- `','.join(l)`. -/
def joinComma (l : List Str) : Str := List.intercalate [','] l

/-- `to_dict_simple` restricted to the fields that matter to the claims:
note that `usage` and `code_snippet` are truncated to 200 characters and
`tags` is split into a list. -/
def to_dict_simple (n : Node) : SnapDict :=
  { title := some n.title
    usage := some (n.usage.take 200)
    code_snippet := some (n.code_snippet.take 200)
    tags := some (.vlist (splitTags n.tags))
    custom_modules := some n.custom_modules }

/-- The history row written by `save`/`restore`:
`History(note_id=node.id, title=node.title, content=json.dumps(node.to_dict_simple()))`. -/
def mkHistorySnap (s : Store) (n : Node) (now : Int) : History :=
  { id := nextHistId s
    note_id := n.id
    title := n.title
    content := .obj (to_dict_simple n)
    created_at := now }

/-! ## `is_descendant` (§4.2 Ancestor Checker)

`is_descendant(parent_id, child_id)` walks `child_id`'s parent chain with a
visited-set guard.  The Python `while current_id:` loop and the
`if not node or not node.parent_id: break` test treat `0` and `None` as falsy.
The loop is embedded with explicit fuel returning `Option Bool`; `none` means
the fuel ran out, and `isDescGo_isSome` shows the fuel `|nodes| + 1` used by
`is_descendant` always suffices (each iteration consumes a fresh stored id). -/

/-- One loop of `is_descendant`: `cur` is `current_id`, `visited` the visited
set (membership is all that is used). -/
def isDescGo (s : Store) (parent_id : Int) : Nat → Int → List Int → Option Bool
  | 0, _, _ => none
  | fuel + 1, cur, visited =>
    if cur = 0 then some false
    else if cur ∈ visited then some false
    else
      match findNode s cur with
      | none => some false
      | some n =>
        match n.parent_id with
        | none => some false
        | some p =>
          if p = 0 then some false
          else if p = parent_id then some true
          else isDescGo s parent_id fuel p (cur :: visited)

/-- `is_descendant` from `src/app.py`. -/
def is_descendant (s : Store) (parent_id child_id : Int) : Bool :=
  if parent_id = child_id then true
  else (isDescGo s parent_id (s.nodes.length + 1) child_id []).getD false

theorem length_filter_lt_of_mem {l : List Int} {a : Int} (h : a ∈ l) :
    (l.filter (fun x => x ≠ a)).length < l.length := by
  induction l with
  | nil => simp at h
  | cons b t ih =>
    by_cases hb : b = a
    · rw [List.filter_cons_of_neg (by simp [hb])]
      exact Nat.lt_succ_of_le (List.length_filter_le _ t)
    · rw [List.filter_cons_of_pos (by simp [hb])]
      have ha : a ∈ t := by
        rcases List.mem_cons.mp h with h' | h'
        · exact absurd h'.symm hb
        · exact h'
      simpa using Nat.succ_lt_succ (ih ha)

/-- Ids of stored nodes not yet in the visited set. -/
def unvisitedCount (s : Store) (visited : List Int) : Nat :=
  ((s.nodes.map (fun n => n.id)).filter (fun i => i ∉ visited)).length

theorem unvisitedCount_cons_lt (s : Store) (visited : List Int) (cur : Int)
    (hid : cur ∈ s.nodes.map (fun n => n.id)) (hnv : cur ∉ visited) :
    unvisitedCount s (cur :: visited) < unvisitedCount s visited := by
  have hsub : (s.nodes.map (fun n => n.id)).filter (fun i => i ∉ cur :: visited) =
      ((s.nodes.map (fun n => n.id)).filter (fun i => i ∉ visited)).filter
        (fun i => i ≠ cur) := by
    rw [List.filter_filter]
    apply List.filter_congr
    intro x _
    by_cases h1 : x = cur <;> by_cases h2 : x ∈ visited <;>
      simp [h1, h2, List.mem_cons]
  have hmem : cur ∈ (s.nodes.map (fun n => n.id)).filter (fun i => i ∉ visited) :=
    List.mem_filter.mpr ⟨hid, by simpa using hnv⟩
  rw [unvisitedCount, unvisitedCount, hsub]
  exact length_filter_lt_of_mem hmem

theorem isDescGo_isSome (s : Store) (parent_id : Int) :
    ∀ (fuel : Nat) (cur : Int) (visited : List Int),
      unvisitedCount s visited < fuel →
      (isDescGo s parent_id fuel cur visited).isSome = true := by
  intro fuel
  induction fuel with
  | zero => intro cur visited h; omega
  | succ f ih =>
    intro cur visited h
    rw [isDescGo]
    by_cases h0 : cur = 0
    · simp [h0]
    · rw [if_neg h0]
      by_cases hv : cur ∈ visited
      · simp [hv]
      · rw [if_neg hv]
        cases hfind : findNode s cur with
        | none => simp
        | some n =>
          dsimp only
          cases hp : n.parent_id with
          | none => simp
          | some p =>
            dsimp only
            by_cases hp0 : p = 0
            · simp [hp0]
            · rw [if_neg hp0]
              by_cases hpp : p = parent_id
              · simp [hpp]
              · rw [if_neg hpp]
                apply ih
                have hid : cur ∈ s.nodes.map (fun m => m.id) := by
                  have := List.find?_some hfind
                  have hmem := List.mem_of_find?_eq_some hfind
                  exact List.mem_map.mpr ⟨n, hmem, by simpa using this⟩
                have := unvisitedCount_cons_lt s visited cur hid hv
                omega

/-- A concrete store whose parent links form the two-element cycle
`5 → 6 → 5`; no node `99` exists. -/
def cycStore : Store :=
  { nodes :=
      [ { id := 5, parent_id := some 6, title := "a".data, type := "folder".data,
          usage := [], code_snippet := [], custom_modules := [],
          is_expanded := false, tags := [], is_favorite := false,
          created_at := 0, updated_at := 0 },
        { id := 6, parent_id := some 5, title := "b".data, type := "folder".data,
          usage := [], code_snippet := [], custom_modules := [],
          is_expanded := false, tags := [], is_favorite := false,
          created_at := 0, updated_at := 0 } ]
    history := [] }

/-- **C8.** For every finite node store — including stores whose `parent_id`
links form a cycle — `is_descendant` terminates: the guarded walk always
yields a result within the `|nodes| + 1` iteration bound (`isSome`), so the
`while` loop cannot run forever.  It returns `true` when the two arguments are
equal (reflexive case).  On a concrete cyclic store (`5 → 6 → 5`) the walk
from `5` revisits `5`, stops, and returns `false` rather than looping. -/
theorem c8_is_descendant_total :
    (∀ (s : Store) (a b : Int),
      (isDescGo s a (s.nodes.length + 1) b []).isSome = true) ∧
    (∀ (s : Store) (a : Int), is_descendant s a a = true) ∧
    (is_descendant cycStore 99 5 = false ∧
      is_descendant cycStore 6 5 = true) := by
  refine ⟨?_, ?_, by decide, by decide⟩
  · intro s a b
    apply isDescGo_isSome
    have : unvisitedCount s [] ≤ s.nodes.length := by
      rw [unvisitedCount]
      calc ((s.nodes.map (fun n => n.id)).filter (fun i => i ∉ ([] : List Int))).length
          ≤ (s.nodes.map (fun n => n.id)).length := List.length_filter_le _ _
        _ = s.nodes.length := List.length_map _ _
    omega
  · intro s a
    rw [is_descendant, if_pos rfl]

/-! ## Mutation service (`save`, `delete`, `move`, `toggle_favorite`,
`restore`)

HTTP плumbing (request-size limit, JSON body presence) is out of scope; the
operations below start where the handlers read fields out of `data`.
Request fields that can be arbitrary JSON are modelled by small sum types
(`ParentInput`, `TagsVal`); `datetime.now()` is the explicit `now` argument. -/

/-- The characters rejected by `validate_node_title`:
`< > & " ' \ / | ? *`. -/
def badTitleChars : Str :=
  ['<', '>', '&', '"', Char.ofNat 39, '\\', '/', '|', '?', '*']

/-- `validate_node_title`: `none` on rejection, `some stripped` on success. -/
def validate_node_title (t : Str) : Option Str :=
  if t = [] then none
  else
    let t' := pyStrip t
    if t'.length < 1 then none
    else if 200 < t'.length then none
    else if t'.any (fun c => c ∈ badTitleChars) then none
    else some t'

/-- No two consecutive underscore separators. -/
def noDoubleUnderscore : Str → Bool
  | '_' :: '_' :: _ => false
  | _ :: t => noDoubleUnderscore t
  | [] => true

def headIsDigit (l : Str) : Bool :=
  match l with
  | [] => false
  | c :: _ => c.isDigit

/-- The digit part accepted by Python's `int()`: non-empty, digits with
single underscore separators strictly between digits (`int("1_0") == 10`;
leading, trailing or doubled underscores raise). -/
def pyIntDigits (l : Str) : Bool :=
  l.all (fun c => c.isDigit || c = '_') && headIsDigit l &&
    headIsDigit l.reverse && noDoubleUnderscore l

/-- Parse of the digit part (underscore separators removed). -/
def parseDigits (l : Str) : Option Nat :=
  if pyIntDigits l then
    some ((l.filter (fun c => c ≠ '_')).foldl
      (fun acc c => acc * 10 + (c.toNat - 48)) 0)
  else none

/-- Python `int(str)` on ASCII input: optional surrounding whitespace and
sign, then digits with underscore separators; `none` models the
`ValueError`. -/
def parseIntStr (s : Str) : Option Int :=
  match pyStrip s with
  | '-' :: ds => (parseDigits ds).map (fun n => -(n : Int))
  | '+' :: ds => (parseDigits ds).map (fun n => (n : Int))
  | ds => (parseDigits ds).map (fun n => (n : Int))

/-- The `parent_id` field of a save request: missing key, JSON `null`, a JSON
integer, or a JSON string. -/
inductive ParentInput where
  | absent
  | null
  | intVal (n : Int)
  | strVal (s : Str)
deriving DecidableEq, Repr

/-- The `if pid and pid > 0: ...` resolution step of `save` applied to an
integer `pid`: only strictly positive values are looked up (and demoted to
`None` when missing or not a folder); `0` and negative values are kept as-is
because `pid and pid > 0` is falsy for them. -/
def resolveIntPid (s : Store) (n : Int) : Option Int :=
  if n ≠ 0 ∧ 0 < n then
    match findNode s n with
    | some pn => if pn.type = "folder".data then some n else none
    | none => none
  else some n

/-- The full `parent_id` resolution of `save` (lines 590–603): the sentinel
values `0`, `""`, `None`, `"None"` (and a missing key) mean no parent; other
strings go through `int(...)`, with `ValueError` also mapped to no parent. -/
def resolve_parent_id (s : Store) (p : ParentInput) : Option Int :=
  match p with
  | .absent => none
  | .null => none
  | .intVal n => if n = 0 then none else resolveIntPid s n
  | .strVal t =>
    if t = [] ∨ t = "None".data then none
    else
      match parseIntStr t with
      | none => none
      | some n => resolveIntPid s n

/-- The body of a `/api/save` request (the fields the handler reads). -/
structure SaveData where
  id : Option Int
  title : Str
  type : Str
  usage : Str
  code_snippet : Str
  custom_modules : Option (List Str)
  parent_id : ParentInput
  is_expanded : Option Bool
  tags : TagsVal
  is_favorite : Option Bool
deriving DecidableEq, Repr

inductive SaveErr where
  | badTitle
  | badType
  | tooManyModules
  | notFound
  | internal
deriving DecidableEq, Repr

/-- Update-branch tag cleaning (lines 637–642, list case):
keep tags whose raw length is ≤ 50 and whose stripped form is non-empty,
store them stripped, at most 20. -/
def clean_tags_update (l : List Str) : List Str :=
  ((l.filter (fun tg => pyStrip tg ≠ [] ∧ tg.length ≤ 50)).map pyStrip).take 20

/-- Create-branch tag cleaning (line 659): stripped non-empty tags, at most
20, with no per-tag length cap. -/
def clean_tags_create (l : List Str) : List Str :=
  ((l.filter (fun tg => pyStrip tg ≠ [])).map pyStrip).take 20

/-- The updated node produced by the `save` update branch (lines 629–646). -/
def updateNodeFields (d : SaveData) (clean_title : Str) (custom_json : List Str)
    (pid : Option Int) (now : Int) (node : Node) : Node :=
  { node with
    title := clean_title
    usage := sanitize_input d.usage
    code_snippet := sanitize_input d.code_snippet
    parent_id := pid
    is_expanded := d.is_expanded.getD node.is_expanded
    tags :=
      match d.tags with
      | .vlist l => joinComma (clean_tags_update l)
      | .vstr t => t.take 500
      | .vdict _ => node.tags
      | .vother => node.tags
    is_favorite := d.is_favorite.getD node.is_favorite
    custom_modules := custom_json
    updated_at := now }

/-- The `save` update branch (lines 608–648): look the node up, write a
pre-update history snapshot when a `note`'s title/code/usage changed, then
overwrite the node's fields. -/
def save_update (s : Store) (d : SaveData) (now : Int) (clean_title : Str)
    (custom_json : List Str) (pid : Option Int) (nid : Int) :
    Except SaveErr (Store × Int) :=
  match findNode s nid with
  | none => .error .notFound
  | some node =>
    let should_save_history :=
      node.type = "note".data ∧
        (node.title ≠ clean_title ∨
         node.code_snippet ≠ sanitize_input d.code_snippet ∨
         node.usage ≠ sanitize_input d.usage)
    let hist :=
      if should_save_history then [mkHistorySnap s node now] else []
    let node' := updateNodeFields d clean_title custom_json pid now node
    .ok ({ nodes := s.nodes.map (fun m => if m.id = nid then node' else m)
           history := hist ++ s.history }, nid)

/-- The node built by the `save` create branch (lines 652–661), with `tl` the
iterated `tags` value. -/
def createdNode (s : Store) (d : SaveData) (now : Int) (clean_title : Str)
    (custom_json : List Str) (pid : Option Int) (tl : List Str) : Node :=
  { id := nextNodeId s
    parent_id := pid
    title := clean_title
    type := d.type
    usage := sanitize_input d.usage
    code_snippet := sanitize_input d.code_snippet
    custom_modules := custom_json
    is_expanded := false
    tags := joinComma (clean_tags_create tl)
    is_favorite := d.is_favorite.getD false
    created_at := now
    updated_at := now }

/-- The `save` create branch (lines 650–663).  Iterating a non-iterable
`tags` value raises, surfacing as the generic 500 (`internal`); a string is
iterated character by character and a dict yields its keys (Python
iteration). -/
def save_create (s : Store) (d : SaveData) (now : Int) (clean_title : Str)
    (custom_json : List Str) (pid : Option Int) :
    Except SaveErr (Store × Int) :=
  match d.tags with
  | .vother => .error .internal
  | tv =>
    let tl :=
      match tv with
      | .vlist l => l
      | .vstr t => t.map (fun c => [c])
      | .vdict ks => ks
      | .vother => []
    let node := createdNode s d now clean_title custom_json pid tl
    .ok ({ nodes := s.nodes ++ [node], history := s.history }, node.id)

/-- `save` (`/api/save`, lines 551–675).  Validation: title, then type, then
the custom-modules count, then parent resolution; with an id (nonzero —
Python truthiness) the update branch runs; otherwise a new node is created.
Returns the new store and the saved node's id. -/
def save (s : Store) (d : SaveData) (now : Int) : Except SaveErr (Store × Int) :=
  match validate_node_title d.title with
  | none => .error .badTitle
  | some clean_title =>
    if d.type ≠ "folder".data ∧ d.type ≠ "note".data then .error .badType
    else
      let cms := d.custom_modules.getD []
      if 50 < cms.length then .error .tooManyModules
      else
        let custom_json := cms.take 50
        let pid := resolve_parent_id s d.parent_id
        match d.id with
        | some nid =>
          if nid = 0 then save_create s d now clean_title custom_json pid
          else save_update s d now clean_title custom_json pid nid
        | none => save_create s d now clean_title custom_json pid

inductive MoveErr where
  | missingId
  | badId
  | itemNotFound
  | targetNotFound
  | targetNotFolder
  | descendantTarget
deriving DecidableEq, Repr

/-- `move_node` (`/api/move`, lines 723–785).  `itemId` falsy (missing or 0)
is rejected; `targetId` 0 or missing means the top level; the target must
exist and be a folder, and `is_descendant(target_id, item_id)` must be false;
moving to the current parent is a no-op success (no write). -/
def move_node (s : Store) (itemId : Option Int) (targetId : Option Int)
    (now : Int) : Except MoveErr Store :=
  match itemId with
  | none => .error .missingId
  | some iid =>
    if iid = 0 then .error .missingId
    else
      let tid : Option Int :=
        match targetId with
        | none => none
        | some t => if t = 0 then none else some t
      match findNode s iid with
      | none => .error .itemNotFound
      | some node =>
        let check : Except MoveErr Unit :=
          match tid with
          | none => .ok ()
          | some t =>
            match findNode s t with
            | none => .error .targetNotFound
            | some tn =>
              if tn.type ≠ "folder".data then .error .targetNotFolder
              else if is_descendant s t iid then .error .descendantTarget
              else .ok ()
        match check with
        | .error e => .error e
        | .ok _ =>
          if node.parent_id = tid then .ok s
          else
            .ok { s with nodes := s.nodes.map (fun m =>
                    if m.id = iid then { m with parent_id := tid, updated_at := now }
                    else m) }

inductive DelErr where
  | emptyIds
  | rootDelete
  | notFound (i : Int)
deriving DecidableEq, Repr

/-- The validation loop of `delete_nodes` (lines 690–702): ids are checked in
order, `0` is rejected, a missing id is a not-found failure; nothing is
deleted before the whole list validates. -/
def validateIds (s : Store) : List Int → Except DelErr Unit
  | [] => .ok ()
  | i :: rest =>
    if i = 0 then .error .rootDelete
    else
      match findNode s i with
      | none => .error (.notFound i)
      | some _ => validateIds s rest

/-- Modelled from the spec: the store's cascade rule.  The SQLAlchemy
relationship declares `cascade="all, delete-orphan"` (`src/app.py` lines
67–70) but the cascade itself is library behaviour outside this repository;
per §4.1–§4.4 of the spec, deleting a node removes it "cascading to
descendants via the store's cascade rule", descendants in the sense of the
§4.2 ancestor walk.  A node is removed iff some requested id is the node
itself or one of its ancestors. -/
def node_marked (s : Store) (ids : List Int) (n : Node) : Bool :=
  ids.any (fun i => is_descendant s i n.id)

/-- `delete_nodes` (`/api/delete`, lines 677–721): validate every id first,
then delete all named nodes with their descendants in one commit. -/
def delete_nodes (s : Store) (ids : List Int) : Except DelErr Store :=
  if ids = [] then .error .emptyIds
  else
    match validateIds s ids with
    | .error e => .error e
    | .ok _ =>
      .ok { s with nodes := s.nodes.filter (fun n => ¬ node_marked s ids n) }

inductive ToggleErr where
  | missingId
  | notFound
deriving DecidableEq, Repr

/-- `toggle_favorite` (`/api/toggle_favorite`, lines 820–852). -/
def toggle_favorite (s : Store) (nid : Option Int) (now : Int) :
    Except ToggleErr Store :=
  match nid with
  | none => .error .missingId
  | some i =>
    if i = 0 then .error .missingId
    else
      match findNode s i with
      | none => .error .notFound
      | some _ =>
        .ok { s with nodes := s.nodes.map (fun m =>
                if m.id = i then { m with is_favorite := ¬ m.is_favorite,
                                          updated_at := now }
                else m) }

inductive RestoreErr where
  | histNotFound
  | noteNotFound
  | corruption
  | internal
deriving DecidableEq, Repr

/-- The note fields after a successful restore from snapshot `d`
(lines 896–910); missing snapshot keys keep the current value, the `tags`
default is the empty list. -/
def restoreNodeFields (d : SnapDict) (now : Int) (note : Node) : Node :=
  { note with
    title := d.title.getD note.title
    usage := d.usage.getD note.usage
    code_snippet := d.code_snippet.getD note.code_snippet
    tags :=
      match d.tags.getD (.vlist []) with
      | .vlist l => joinComma ((l.filter (fun tg => pyStrip tg ≠ [])).map pyStrip)
      | .vstr t => t
      | .vdict _ => note.tags
      | .vother => note.tags
    custom_modules := d.custom_modules.getD []
    updated_at := now }

/-- `restore_history` (`/api/restore/<id>`, lines 871–921).  The result is a
pair (outcome, resulting store) because the corruption branch returns from
inside the `begin_nested` block after the pre-restore history row was added
(a plain `return` releases the savepoint, keeping the row), while the
non-object branch raises (`AttributeError` on `.get`), rolling the savepoint
back before the generic error handler answers. -/
def restore_history (s : Store) (hid : Int) (now : Int) :
    Except RestoreErr Unit × Store :=
  match findHistory s hid with
  | none => (.error .histNotFound, s)
  | some h =>
    match findNode s h.note_id with
    | none => (.error .noteNotFound, s)
    | some note =>
      let nh := mkHistorySnap s note now
      match h.content with
      | .empty => (.ok (), { s with history := nh :: s.history })
      | .malformed => (.error .corruption, { s with history := nh :: s.history })
      | .nonObject => (.error .internal, s)
      | .obj d =>
        let note' := restoreNodeFields d now note
        (.ok (),
          { nodes := s.nodes.map (fun m => if m.id = note.id then note' else m)
            history := nh :: s.history })

instance {ε α : Type} [DecidableEq ε] [DecidableEq α] : DecidableEq (Except ε α) :=
  fun x y =>
    match x, y with
    | .error e, .error f =>
      if h : e = f then .isTrue (by rw [h]) else .isFalse (fun c => h (Except.error.inj c))
    | .error _, .ok _ => .isFalse (fun c => Except.noConfusion c)
    | .ok _, .error _ => .isFalse (fun c => Except.noConfusion c)
    | .ok a, .ok b =>
      if h : a = b then .isTrue (by rw [h]) else .isFalse (fun c => h (Except.ok.inj c))

/-! ## Reachable store states (§3 lifecycle, §6 operations)

`Step` is one successful mutating operation; `Reachable` closes the initial
store (`init_data`: the single root folder, lines 923–940) under these
operations. -/

/-- One successful write operation applied to the store. -/
inductive Step : Store → Store → Prop where
  | save : ∀ (s : Store) (d : SaveData) (now : Int) (s' : Store) (i : Int),
      save s d now = .ok (s', i) → Step s s'
  | move : ∀ (s : Store) (a b : Option Int) (now : Int) (s' : Store),
      move_node s a b now = .ok s' → Step s s'
  | del : ∀ (s : Store) (ids : List Int) (s' : Store),
      delete_nodes s ids = .ok s' → Step s s'
  | fav : ∀ (s : Store) (i : Option Int) (now : Int) (s' : Store),
      toggle_favorite s i now = .ok s' → Step s s'
  | restore : ∀ (s : Store) (hid now : Int) (s' : Store),
      restore_history s hid now = (.ok (), s') → Step s s'

/-- The root folder created by `init_data` on an empty database (id 1). -/
def rootNode : Node :=
  { id := 1, parent_id := none, title := "根目录".data,
    type := "folder".data, usage := [], code_snippet := [],
    custom_modules := [], is_expanded := true, tags := "系统,根目录".data,
    is_favorite := false, created_at := 0, updated_at := 0 }

/-- The store created by `init_data` on an empty database: the root folder. -/
def initStore : Store := { nodes := [rootNode], history := [] }

/-- Stores reachable from the initial store by the write operations. -/
inductive Reachable : Store → Prop where
  | init : Reachable initStore
  | step : ∀ {s s' : Store}, Reachable s → Step s s' → Reachable s'

/-- `a`'s stored parent is `b`: one upward step of the parent relation. -/
def parentStep (s : Store) (a b : Int) : Prop :=
  ∃ n ∈ s.nodes, n.id = a ∧ n.parent_id = some b

instance (s : Store) (a b : Int) : Decidable (parentStep s a b) := by
  unfold parentStep
  infer_instance

/-- A node record with all-default fields, used to build concrete stores. -/
def baseNode : Node :=
  { id := 0, parent_id := none, title := [], type := "note".data, usage := [],
    code_snippet := [], custom_modules := [], is_expanded := false, tags := [],
    is_favorite := false, created_at := 0, updated_at := 0 }

/-- Two folders: node 1 at top level, node 2 directly under node 1. -/
def c1s : Store :=
  { nodes :=
      [ { baseNode with
            id := 1, type := "folder".data, title := "X".data },
        { baseNode with
            id := 2, type := "folder".data, title := "T".data,
            parent_id := some 1 } ]
    history := [] }

/-- **C1.** The claim predicts that `move(X, T)` fails with `ValidationError`
exactly when `T` is `X` or a descendant of `X`, and otherwise succeeds (a
no-op when `X` is already directly under `T`).  The code violates both
directions, because `move_node` calls `is_descendant(target_id, item_id)` —
the arguments are swapped relative to the cycle check its own error message
("cannot move a folder into its own subfolder") describes.  On the store
`c1s` (folder 2 inside folder 1): `2` is a descendant of `1` (certified by
the code's own `is_descendant`), so the claim demands that `move(1, 2)` fail;
instead it succeeds and sets node 1's `parent_id` to `2`, closing a parent
cycle.  Conversely node 2 already sits directly under node 1, so the claim
demands a no-op success of `move(2, 1)`; instead the code returns the
`ValidationError`. -/
theorem c1_move_cycle_check_swapped :
    (is_descendant c1s 1 2 = true ∧
      (move_node c1s (some 1) (some 2) 7).map
        (fun s' => (findNode s' 1).map Node.parent_id) = .ok (some (some 2))) ∧
    ((findNode c1s 2).map Node.parent_id = some (some 1) ∧
      move_node c1s (some 2) (some 1) 7 = .error .descendantTarget) := by
  decide

/-- Save request: create folder "A" under the root (node 1). -/
def c2dA : SaveData :=
  { id := none, title := "A".data, type := "folder".data, usage := [],
    code_snippet := [], custom_modules := none, parent_id := .intVal 1,
    is_expanded := none, tags := .vlist [], is_favorite := none }

/-- Save request: create folder "B" under folder "A" (node 2). -/
def c2dB : SaveData :=
  { id := none, title := "B".data, type := "folder".data, usage := [],
    code_snippet := [], custom_modules := none, parent_id := .intVal 2,
    is_expanded := none, tags := .vlist [], is_favorite := none }

/-- The store after creating folder "A" (node 2) under the root. -/
def c2sA : Store :=
  { nodes := initStore.nodes ++
      [ { baseNode with
            id := 2, type := "folder".data, title := "A".data,
            parent_id := some 1 } ]
    history := [] }

/-- The store after also creating folder "B" (node 3) under "A". -/
def c2sB : Store :=
  { nodes := c2sA.nodes ++
      [ { baseNode with
            id := 3, type := "folder".data, title := "B".data,
            parent_id := some 2 } ]
    history := [] }

/-- The store after `move(2, 3)`: folder "A" now sits under its own child
"B", so the parent links of 2 and 3 form a cycle. -/
def c2bad : Store :=
  { nodes :=
      [ rootNode,
        { baseNode with
            id := 2, type := "folder".data, title := "A".data,
            parent_id := some 3 },
        { baseNode with
            id := 3, type := "folder".data, title := "B".data,
            parent_id := some 2 } ]
    history := [] }

/-- **C2.** The claim states that every store state reachable from the
initial state by save/move/delete/toggle/restore keeps the parent relation a
forest.  The code violates it: starting from the initial root, creating
folder "A" under the root, folder "B" under "A", and then calling
`move(2, 3)` — moving "A" into its own child — succeeds because of the
swapped `is_descendant` arguments (see C1), yielding a reachable state in
which node 2 is its own proper ancestor (`2 → 3 → 2`). -/
theorem c2_forest_invariant_broken :
    Reachable c2bad ∧ Relation.TransGen (parentStep c2bad) 2 2 := by
  constructor
  · exact Reachable.step (Reachable.step (Reachable.step Reachable.init
      (Step.save initStore c2dA 0 c2sA 2 (by decide)))
      (Step.save c2sA c2dB 0 c2sB 3 (by decide)))
      (Step.move c2sB (some 2) (some 3) 0 c2bad (by decide))
  · exact Relation.TransGen.head (show parentStep c2bad 2 3 by decide)
      (Relation.TransGen.single (show parentStep c2bad 3 2 by decide))

/-! ## Shared lemmas for the `save` branches -/

theorem save_eq_update (s : Store) (d : SaveData) (now : Int) (nid : Int)
    (ct : Str) (hid : d.id = some nid) (hnz : nid ≠ 0)
    (hct : validate_node_title d.title = some ct)
    (htype : d.type = "folder".data ∨ d.type = "note".data)
    (hcm : (d.custom_modules.getD []).length ≤ 50) :
    save s d now = save_update s d now ct ((d.custom_modules.getD []).take 50)
      (resolve_parent_id s d.parent_id) nid := by
  rw [save, hct]
  dsimp only
  rw [if_neg (by rcases htype with h | h <;> simp [h]), if_neg (not_lt.mpr hcm), hid]
  dsimp only
  rw [if_neg hnz]

theorem save_eq_create (s : Store) (d : SaveData) (now : Int)
    (ct : Str) (hid : d.id = none)
    (hct : validate_node_title d.title = some ct)
    (htype : d.type = "folder".data ∨ d.type = "note".data)
    (hcm : (d.custom_modules.getD []).length ≤ 50) :
    save s d now = save_create s d now ct ((d.custom_modules.getD []).take 50)
      (resolve_parent_id s d.parent_id) := by
  rw [save, hct]
  dsimp only
  rw [if_neg (by rcases htype with h | h <;> simp [h]), if_neg (not_lt.mpr hcm), hid]

theorem find?_map_update (l : List Node) (i : Int) (n n' : Node)
    (hfind : l.find? (fun m => m.id = i) = some n) (hid : n'.id = i) :
    (l.map (fun m => if m.id = i then n' else m)).find? (fun m => m.id = i) =
      some n' := by
  induction l with
  | nil => simp at hfind
  | cons a t ih =>
    by_cases ha : a.id = i
    · simp [List.find?, ha, hid]
    · rw [List.find?_cons_of_neg _ (by simpa using ha)] at hfind
      simp only [List.map_cons, if_neg ha]
      rw [List.find?_cons_of_neg _ (by simpa using ha)]
      exact ih hfind

theorem le_foldl_max (l : List Node) (acc : Int) :
    acc ≤ l.foldl (fun a n => max a n.id) acc := by
  induction l generalizing acc with
  | nil => exact le_refl _
  | cons a t ih => exact le_trans (le_max_left _ _) (ih (max acc a.id))

theorem mem_le_foldl_max (l : List Node) (acc : Int) :
    ∀ m ∈ l, m.id ≤ l.foldl (fun a n => max a n.id) acc := by
  induction l generalizing acc with
  | nil => simp
  | cons a t ih =>
    intro m hm
    rcases List.mem_cons.mp hm with h' | h'
    · subst h'
      exact le_trans (le_max_right acc m.id) (le_foldl_max t _)
    · exact ih (max acc a.id) m h'

theorem nextNodeId_fresh (s : Store) : ∀ m ∈ s.nodes, m.id ≠ nextNodeId s := by
  intro m hm hc
  have := mem_le_foldl_max s.nodes 0 m hm
  rw [hc, nextNodeId] at this
  omega

theorem findNode_append_self (l : List Node) (node : Node)
    (h : ∀ m ∈ l, m.id ≠ node.id) :
    (l ++ [node]).find? (fun m => m.id = node.id) = some node := by
  induction l with
  | nil => simp [List.find?]
  | cons a t ih =>
    rw [List.cons_append,
      List.find?_cons_of_neg _ (by simpa using h a (List.mem_cons_self a t))]
    exact ih (fun m hm => h m (List.mem_cons_of_mem a hm))

/-! ## C3: history snapshots written by `save` on an existing node -/

/-- A store containing one note whose `usage` is the single character `&`. -/
def c3note : Node :=
  { baseNode with
      id := 1, type := "note".data, title := "t".data, usage := "&".data }

def c3s : Store := { nodes := [c3note], history := [] }

/-- A save request resubmitting exactly the stored values of `c3note`. -/
def c3d : SaveData :=
  { id := some 1, title := "t".data, type := "note".data, usage := "&".data,
    code_snippet := [], custom_modules := none, parent_id := .absent,
    is_expanded := none, tags := .vlist [], is_favorite := none }

/-- **C3, counterexample.**  The claim says that a save whose submitted
title, usage and code_snippet all equal the stored values writes zero history
rows.  The code compares the stored values against the *sanitized*
(HTML-escaped) submissions, so resubmitting a stored `usage` of `"&"`
unchanged (escaped to `"&amp;"`) still writes one history row. -/
theorem c3_counterexample :
    c3d.title = c3note.title ∧ c3d.usage = c3note.usage ∧
    c3d.code_snippet = c3note.code_snippet ∧ c3note.type = "note".data ∧
    c3s.history = [] ∧
    (save c3s c3d 0).map (fun p => p.1.history.length) = .ok 1 := by
  decide

/-- **C3 (amended).**  For a save on an existing node, letting `ct` be the
validated (stripped) title: if the node is a `note` and `ct`, the *sanitized*
code_snippet, or the *sanitized* usage differs from the stored value, exactly
one history row capturing the pre-update state (the `to_dict_simple`
serialization, which truncates usage/code to 200 characters) is written;
if the node is not a note, or all three sanitized values equal the stored
ones, zero history rows are written — in particular metadata-only changes
(favorite, tags, expansion) write none. -/
theorem c3_save_history_amended (s : Store) (d : SaveData) (now : Int)
    (nid : Int) (node : Node) (ct : Str)
    (hid : d.id = some nid) (hnz : nid ≠ 0)
    (hct : validate_node_title d.title = some ct)
    (htype : d.type = "folder".data ∨ d.type = "note".data)
    (hcm : (d.custom_modules.getD []).length ≤ 50)
    (hfind : findNode s nid = some node) :
    ∃ s', save s d now = .ok (s', nid) ∧
      ((node.type = "note".data ∧
          (node.title ≠ ct ∨
           node.code_snippet ≠ sanitize_input d.code_snippet ∨
           node.usage ≠ sanitize_input d.usage)) →
        s'.history = mkHistorySnap s node now :: s.history) ∧
      ((node.type ≠ "note".data ∨
          (node.title = ct ∧
           node.code_snippet = sanitize_input d.code_snippet ∧
           node.usage = sanitize_input d.usage)) →
        s'.history = s.history) := by
  rw [save_eq_update s d now nid ct hid hnz hct htype hcm, save_update, hfind]
  dsimp only
  refine ⟨_, rfl, ?_, ?_⟩
  · intro hcond
    rw [if_pos hcond]
    rfl
  · intro hcond
    rw [if_neg ?_]
    · rfl
    · rintro ⟨hA, hB⟩
      rcases hcond with h | ⟨e1, e2, e3⟩
      · exact h hA
      · rcases hB with h | h | h
        · exact h e1
        · exact h e2
        · exact h e3

/-- Witness for `c3_save_history_amended` at the concrete store `c3s`:
the save succeeds and, the sanitized usage differing from the stored one,
exactly one pre-update snapshot is prepended. -/
theorem c3_save_history_witness :
    ∃ s', save c3s c3d 0 = .ok (s', 1) ∧
      ((c3note.type = "note".data ∧
          (c3note.title ≠ "t".data ∨
           c3note.code_snippet ≠ sanitize_input c3d.code_snippet ∨
           c3note.usage ≠ sanitize_input c3d.usage)) →
        s'.history = mkHistorySnap c3s c3note 0 :: c3s.history) ∧
      ((c3note.type ≠ "note".data ∨
          (c3note.title = "t".data ∧
           c3note.code_snippet = sanitize_input c3d.code_snippet ∧
           c3note.usage = sanitize_input c3d.usage)) →
        s'.history = c3s.history) :=
  c3_save_history_amended c3s c3d 0 1 c3note "t".data (by decide) (by decide)
    (by decide) (by decide) (by decide) (by decide)

/-! ## C10: the parent frame effect of a `save` update -/

/-- Store for the C10 witness: folder 2, and note 1 sitting under it. -/
def c10s : Store :=
  { nodes :=
      [ { baseNode with
            id := 2, type := "folder".data, title := "f".data },
        { baseNode with
            id := 1, type := "note".data, title := "n".data,
            parent_id := some 2 } ]
    history := [] }

/-- Save request updating note 1 with the `parent_id` key omitted. -/
def c10d : SaveData :=
  { id := some 1, title := "n".data, type := "note".data, usage := [],
    code_snippet := [], custom_modules := none, parent_id := .absent,
    is_expanded := none, tags := .vlist [], is_favorite := none }

/-- **C10.**  A `save` that updates an existing node always overwrites the
node's `parent_id` with the value resolved from the request alone — the old
parent is never consulted, so it is preserved only if the caller re-sends
it — and when the request omits `parent_id` or passes one of the sentinel
values (`0`, `""`, `None`, `"None"`), the resolved value is `none`: the node
is silently moved to the top level. -/
theorem c10_save_update_parent_overwrite (s : Store) (d : SaveData) (now : Int)
    (nid : Int) (node : Node) (ct : Str)
    (hid : d.id = some nid) (hnz : nid ≠ 0)
    (hct : validate_node_title d.title = some ct)
    (htype : d.type = "folder".data ∨ d.type = "note".data)
    (hcm : (d.custom_modules.getD []).length ≤ 50)
    (hfind : findNode s nid = some node) :
    ∃ s' n', save s d now = .ok (s', nid) ∧ findNode s' nid = some n' ∧
      n'.parent_id = resolve_parent_id s d.parent_id ∧
      ((d.parent_id = .absent ∨ d.parent_id = .null ∨ d.parent_id = .intVal 0 ∨
          d.parent_id = .strVal [] ∨ d.parent_id = .strVal "None".data) →
        n'.parent_id = none) := by
  have hnodeid : node.id = nid := by
    have := List.find?_some hfind
    simpa using this
  rw [save_eq_update s d now nid ct hid hnz hct htype hcm, save_update, hfind]
  dsimp only
  refine ⟨_, updateNodeFields d ct ((d.custom_modules.getD []).take 50)
    (resolve_parent_id s d.parent_id) now node, rfl, ?_, rfl, ?_⟩
  · exact find?_map_update s.nodes nid node _ hfind (by simpa using hnodeid)
  · intro hsent
    show resolve_parent_id s d.parent_id = none
    rcases hsent with h | h | h | h | h <;> rw [h] <;> simp [resolve_parent_id]

/-- Witness for `c10_save_update_parent_overwrite`: note 1 sits under folder
2; a save that omits `parent_id` resolves the parent to `none`, reparenting
the note to the top level. -/
theorem c10_save_update_parent_witness :
    ∃ s' n', save c10s c10d 0 = .ok (s', 1) ∧ findNode s' 1 = some n' ∧
      n'.parent_id = resolve_parent_id c10s c10d.parent_id ∧
      ((c10d.parent_id = .absent ∨ c10d.parent_id = .null ∨
          c10d.parent_id = .intVal 0 ∨ c10d.parent_id = .strVal [] ∨
          c10d.parent_id = .strVal "None".data) →
        n'.parent_id = none) :=
  c10_save_update_parent_overwrite c10s c10d 0 1
    { baseNode with
        id := 1, type := "note".data, title := "n".data, parent_id := some 2 }
    "n".data (by decide) (by decide) (by decide) (by decide) (by decide)
    (by decide)

/-! ## C5: resolution of an invalid `parent_id` on save -/

/-- The `save_create` branch always succeeds (when `tags` is iterable),
storing a node with the resolved parent under the fresh autoincrement id. -/
theorem save_create_ok (s : Store) (d : SaveData) (now : Int) (ct : Str)
    (cj : List Str) (pid : Option Int) (htags : d.tags ≠ .vother) :
    ∃ s' n', save_create s d now ct cj pid = .ok (s', nextNodeId s) ∧
      findNode s' (nextNodeId s) = some n' ∧ n'.parent_id = pid := by
  cases htv : d.tags with
  | vother => exact absurd htv htags
  | vlist l =>
    rw [save_create, htv]
    dsimp only
    refine ⟨_, createdNode s d now ct cj pid l, rfl, ?_, rfl⟩
    exact findNode_append_self s.nodes (createdNode s d now ct cj pid l)
      (fun m hm => nextNodeId_fresh s m hm)
  | vstr t =>
    rw [save_create, htv]
    dsimp only
    refine ⟨_, createdNode s d now ct cj pid (t.map (fun c => [c])), rfl, ?_, rfl⟩
    exact findNode_append_self s.nodes
      (createdNode s d now ct cj pid (t.map (fun c => [c])))
      (fun m hm => nextNodeId_fresh s m hm)
  | vdict ks =>
    rw [save_create, htv]
    dsimp only
    refine ⟨_, createdNode s d now ct cj pid ks, rfl, ?_, rfl⟩
    exact findNode_append_self s.nodes (createdNode s d now ct cj pid ks)
      (fun m hm => nextNodeId_fresh s m hm)

def c5s : Store := { nodes := [rootNode], history := [] }

/-- Create request whose `parent_id` is the integer `-5` — not a sentinel
value, and not the id of any node. -/
def c5d : SaveData :=
  { id := none, title := "n".data, type := "note".data, usage := [],
    code_snippet := [], custom_modules := none, parent_id := .intVal (-5),
    is_expanded := none, tags := .vlist [], is_favorite := none }

/-- **C5, counterexample.**  The claim says any `parent_id` that is neither
the no-parent sentinel nor an existing folder is demoted to `none` (stored
with no parent).  But the resolution step guards its lookup with
`if pid and pid > 0:`, so a *negative* integer (here `-5`; no such node
exists) is stored verbatim as the new node's `parent_id`. -/
theorem c5_counterexample :
    findNode c5s (-5) = none ∧ c5d.parent_id ≠ .intVal 0 ∧
    (save c5s c5d 0).map (fun p => (findNode p.1 p.2).map Node.parent_id) =
      .ok (some (some (-5))) := by
  decide

/-- **C5 (amended).**  On a create, a `parent_id` that parses to a *positive*
integer not denoting an existing folder is silently demoted to no parent and
the save still succeeds; but a `parent_id` that parses to a *non-positive*
integer skips validation entirely (`if pid and pid > 0`) and a negative value
is stored verbatim. -/
theorem resolveIntPid_pos_invalid (s : Store) (n : Int) (hpos : 0 < n)
    (hinv : ∀ pn, findNode s n = some pn → pn.type ≠ "folder".data) :
    resolveIntPid s n = none := by
  rw [resolveIntPid, if_pos ⟨by omega, hpos⟩]
  cases hfp : findNode s n with
  | none => rfl
  | some pn =>
    dsimp only
    rw [if_neg (hinv pn hfp)]

theorem resolveIntPid_nonpos (s : Store) (n : Int) (hn : n ≤ 0) :
    resolveIntPid s n = some n := by
  rw [resolveIntPid, if_neg (by rintro ⟨h1, h2⟩; omega)]

/-- A non-sentinel `parent_id` that is an integer, or a string parsing as
one, goes through `resolveIntPid`. -/
theorem resolve_parent_id_eq_int (s : Store) (p : ParentInput) (n : Int)
    (hparse : (p = .intVal n ∧ n ≠ 0) ∨
      (∃ t, p = .strVal t ∧ t ≠ [] ∧ t ≠ "None".data ∧
        parseIntStr t = some n)) :
    resolve_parent_id s p = resolveIntPid s n := by
  rcases hparse with ⟨hp, hn0⟩ | ⟨t, hp, ht1, ht2, hpt⟩
  · rw [hp]
    simp only [resolve_parent_id]
    rw [if_neg hn0]
  · rw [hp]
    simp only [resolve_parent_id]
    rw [if_neg (by rintro (h | h); exacts [ht1 h, ht2 h]), hpt]

/-- A non-sentinel string `parent_id` that `int()` rejects resolves to no
parent. -/
theorem resolve_parent_id_str_unparsable (s : Store) (t : Str)
    (ht1 : t ≠ []) (ht2 : t ≠ "None".data) (hpt : parseIntStr t = none) :
    resolve_parent_id s (.strVal t) = none := by
  simp only [resolve_parent_id]
  rw [if_neg (by rintro (h | h); exacts [ht1 h, ht2 h]), hpt]

/-- **C5 (amended).**  For every save — create or update — whose `parent_id`
is a non-sentinel integer or string: the save does not fail on account of the
parent, and the node is stored with `parent_id` equal to the resolved value,
where the resolution (a) demotes a *positive* integer that does not refer to
an existing folder to no parent, (b) demotes a string that `int()` rejects to
no parent, but (c) stores a value parsing to a *non-positive* integer — a
negative number, or the string `"0"` — verbatim without validation, because
`if pid and pid > 0` skips the lookup for it. -/
theorem c5_parent_fallback_amended (s : Store) (d : SaveData) (now : Int)
    (ct : Str)
    (hct : validate_node_title d.title = some ct)
    (htype : d.type = "folder".data ∨ d.type = "note".data)
    (hcm : (d.custom_modules.getD []).length ≤ 50) :
    (∀ n : Int,
      ((d.parent_id = .intVal n ∧ n ≠ 0) ∨
        (∃ t, d.parent_id = .strVal t ∧ t ≠ [] ∧ t ≠ "None".data ∧
          parseIntStr t = some n)) →
      (0 < n → (∀ pn, findNode s n = some pn → pn.type ≠ "folder".data) →
        resolve_parent_id s d.parent_id = none) ∧
      (n ≤ 0 → resolve_parent_id s d.parent_id = some n)) ∧
    (∀ t, d.parent_id = .strVal t → t ≠ [] → t ≠ "None".data →
      parseIntStr t = none → resolve_parent_id s d.parent_id = none) ∧
    (d.id = none → d.tags ≠ .vother →
      ∃ s' n', save s d now = .ok (s', nextNodeId s) ∧
        findNode s' (nextNodeId s) = some n' ∧
        n'.parent_id = resolve_parent_id s d.parent_id) ∧
    (∀ nid node, d.id = some nid → nid ≠ 0 → findNode s nid = some node →
      ∃ s' n', save s d now = .ok (s', nid) ∧ findNode s' nid = some n' ∧
        n'.parent_id = resolve_parent_id s d.parent_id) := by
  refine ⟨?_, ?_, ?_, ?_⟩
  · intro n hparse
    constructor
    · intro hpos hinv
      rw [resolve_parent_id_eq_int s d.parent_id n hparse]
      exact resolveIntPid_pos_invalid s n hpos hinv
    · intro hn
      rw [resolve_parent_id_eq_int s d.parent_id n hparse]
      exact resolveIntPid_nonpos s n hn
  · intro t hp ht1 ht2 hpt
    rw [hp]
    exact resolve_parent_id_str_unparsable s t ht1 ht2 hpt
  · intro hid htags
    rw [save_eq_create s d now ct hid hct htype hcm]
    exact save_create_ok s d now ct ((d.custom_modules.getD []).take 50)
      (resolve_parent_id s d.parent_id) htags
  · intro nid node hid hnz hfind
    have hnodeid : node.id = nid := by
      have := List.find?_some hfind
      simpa using this
    rw [save_eq_update s d now nid ct hid hnz hct htype hcm, save_update,
      hfind]
    dsimp only
    exact ⟨_, updateNodeFields d ct ((d.custom_modules.getD []).take 50)
      (resolve_parent_id s d.parent_id) now node, rfl,
      find?_map_update s.nodes nid node _ hfind (by simpa using hnodeid), rfl⟩

/-- Store for the C5 witness: node 7 exists but is a note, not a folder. -/
def c5s2 : Store :=
  { nodes :=
      [ { baseNode with id := 7, type := "note".data, title := "m".data } ]
    history := [] }

/-- Create request naming the non-folder node 7 as parent, as the string
`"7"`. -/
def c5d2 : SaveData :=
  { id := none, title := "n".data, type := "note".data, usage := [],
    code_snippet := [], custom_modules := none, parent_id := .strVal "7".data,
    is_expanded := none, tags := .vlist [], is_favorite := none }

/-- Store for the C5 update-branch witness: a single top-level note. -/
def c5s3 : Store :=
  { nodes :=
      [ { baseNode with id := 1, type := "note".data, title := "w".data } ]
    history := [] }

/-- The note of `c5s3`. -/
def c5note3 : Node :=
  { baseNode with id := 1, type := "note".data, title := "w".data }

/-- Update request on note 1 whose `parent_id` is the string `"0"` — not in
the sentinel list, parsed to the integer `0`. -/
def c5d3 : SaveData :=
  { id := some 1, title := "w".data, type := "note".data, usage := [],
    code_snippet := [], custom_modules := none, parent_id := .strVal "0".data,
    is_expanded := none, tags := .vlist [], is_favorite := none }

/-- Witness for `c5_parent_fallback_amended`: creating under the string
`"7"` (a non-folder node) succeeds and stores no parent; updating with the
string `"0"` succeeds and stores the literal `0`. -/
theorem c5_parent_fallback_witness :
    (resolve_parent_id c5s2 c5d2.parent_id = none ∧
      ∃ s' n', save c5s2 c5d2 0 = .ok (s', nextNodeId c5s2) ∧
        findNode s' (nextNodeId c5s2) = some n' ∧
        n'.parent_id = resolve_parent_id c5s2 c5d2.parent_id) ∧
    (resolve_parent_id c5s3 c5d3.parent_id = some 0 ∧
      ∃ s' n', save c5s3 c5d3 0 = .ok (s', 1) ∧ findNode s' 1 = some n' ∧
        n'.parent_id = resolve_parent_id c5s3 c5d3.parent_id) := by
  have h2 := c5_parent_fallback_amended c5s2 c5d2 0 "n".data (by decide)
    (by decide) (by decide)
  have h3 := c5_parent_fallback_amended c5s3 c5d3 0 "w".data (by decide)
    (by decide) (by decide)
  refine ⟨⟨?_, ?_⟩, ?_, ?_⟩
  · refine (h2.1 7 (Or.inr ⟨"7".data, by decide, by decide, by decide,
      by decide⟩)).1 (by decide) ?_
    intro pn hpn
    have hpn' : some { baseNode with
        id := 7, type := "note".data, title := "m".data } = some pn := hpn
    rw [← Option.some.inj hpn']
    decide
  · exact h2.2.2.1 (by decide) (by decide)
  · exact (h3.1 0 (Or.inr ⟨"0".data, by decide, by decide, by decide,
      by decide⟩)).2 (by decide)
  · exact h3.2.2.2 1 c5note3 (by decide) (by decide) (by decide)

/-! ## C6: `restore_history` -/

def c6note : Node :=
  { baseNode with id := 1, type := "note".data, title := "n".data }

/-- A history row whose stored content is falsy (`None`/`""`) — not valid
JSON (`json.loads` rejects the empty string). -/
def c6h : History :=
  { id := 1, note_id := 1, title := "n".data, content := .empty,
    created_at := 0 }

def c6s : Store := { nodes := [c6note], history := [c6h] }

/-- **C6, counterexample.**  The claim says restore fails with
`DataCorruptionError` whenever the snapshot content is not valid structured
data.  A history row whose content is empty (`None`/`""`) is not valid JSON,
yet `if history.content:` skips the whole parse: the restore returns success
— and still appends the new pre-restore history row (2 rows afterwards). -/
theorem c6_counterexample :
    c6h.content = .empty ∧
    (restore_history c6s 1 0).1 = .ok () ∧
    (restore_history c6s 1 0).2.history.length = 2 := by
  decide

/-- **C6 (amended).** For a restore whose history row and referenced note
both exist: (a) when the content is a genuine snapshot (a JSON object
produced by `to_dict_simple` of some node state `m`), restore succeeds,
exactly one new history row capturing the note's pre-restore state is
created, and the note's title/usage/code_snippet/tags/custom_modules are
overwritten with the snapshot's values (usage and code as their 200-character
truncations, tags re-joined after stripping); (b) non-empty unparsable
content fails with `DataCorruptionError` — though the new pre-restore row is
still kept, the early `return` releasing the savepoint; (c) empty content
(`None`/`""`) *succeeds*, adding the pre-restore row but changing no node;
(d) valid JSON that is not an object raises, surfacing as the generic
internal error with no store change. -/
theorem c6_restore_amended (s : Store) (hid now : Int) (h : History)
    (note : Node)
    (hh : findHistory s hid = some h) (hn : findNode s h.note_id = some note) :
    (∀ m : Node, h.content = .obj (to_dict_simple m) →
      ∃ note', (restore_history s hid now).1 = .ok () ∧
        (restore_history s hid now).2.history =
          mkHistorySnap s note now :: s.history ∧
        findNode (restore_history s hid now).2 note.id = some note' ∧
        note'.title = m.title ∧
        note'.usage = m.usage.take 200 ∧
        note'.code_snippet = m.code_snippet.take 200 ∧
        note'.tags = joinComma (((splitTags m.tags).filter
          (fun tg => pyStrip tg ≠ [])).map pyStrip) ∧
        note'.custom_modules = m.custom_modules) ∧
    (h.content = .malformed →
      (restore_history s hid now).1 = .error .corruption ∧
      (restore_history s hid now).2.history =
        mkHistorySnap s note now :: s.history) ∧
    (h.content = .empty →
      (restore_history s hid now).1 = .ok () ∧
      (restore_history s hid now).2.history =
        mkHistorySnap s note now :: s.history ∧
      (restore_history s hid now).2.nodes = s.nodes) ∧
    (h.content = .nonObject →
      restore_history s hid now = (.error .internal, s)) := by
  have hnoteid : note.id = h.note_id := by
    have := List.find?_some hn
    simpa using this
  have hn' : findNode s note.id = some note := by
    rw [hnoteid]
    exact hn
  rw [restore_history, hh]
  dsimp only
  rw [hn]
  dsimp only
  refine ⟨?_, ?_, ?_, ?_⟩
  · intro m hcm
    rw [hcm]
    dsimp only
    exact ⟨restoreNodeFields (to_dict_simple m) now note, rfl, rfl,
      find?_map_update s.nodes note.id note _ hn' rfl, rfl, rfl, rfl, rfl, rfl⟩
  · intro hcm
    rw [hcm]
    exact ⟨rfl, rfl⟩
  · intro hcm
    rw [hcm]
    exact ⟨rfl, rfl, rfl⟩
  · intro hcm
    rw [hcm]

/-- The pre-restore state of the note in the C6 witness store. -/
def c6m : Node :=
  { baseNode with
      id := 1, type := "note".data, title := "old".data, usage := "u".data }

/-- The current note (after later edits) in the C6 witness store. -/
def c6note2 : Node :=
  { baseNode with
      id := 1, type := "note".data, title := "new".data, usage := "v".data }

def c6h2 : History :=
  { id := 1, note_id := 1, title := "old".data,
    content := .obj (to_dict_simple c6m), created_at := 0 }

def c6s2 : Store := { nodes := [c6note2], history := [c6h2] }

/-- Witness for `c6_restore_amended`: restoring a genuine snapshot of the
older state overwrites the note's fields and prepends exactly one
pre-restore history row. -/
theorem c6_restore_witness :
    ∃ note', (restore_history c6s2 1 5).1 = .ok () ∧
      (restore_history c6s2 1 5).2.history =
        mkHistorySnap c6s2 c6note2 5 :: c6s2.history ∧
      findNode (restore_history c6s2 1 5).2 c6note2.id = some note' ∧
      note'.title = c6m.title ∧
      note'.usage = c6m.usage.take 200 ∧
      note'.code_snippet = c6m.code_snippet.take 200 ∧
      note'.tags = joinComma (((splitTags c6m.tags).filter
        (fun tg => pyStrip tg ≠ [])).map pyStrip) ∧
      note'.custom_modules = c6m.custom_modules :=
  (c6_restore_amended c6s2 1 5 c6h2 c6note2 (by decide) (by decide)).1 c6m
    (by decide)

/-! ## C7: `delete_nodes` -/

theorem validateIds_error_of_zero (s : Store) :
    ∀ ids : List Int, (∃ i ∈ ids, i = 0) →
      ∃ e, validateIds s ids = .error e := by
  intro ids
  induction ids with
  | nil => rintro ⟨i, hi, _⟩; simp at hi
  | cons a t ih =>
    rintro ⟨i, hi, hiz⟩
    by_cases ha : a = 0
    · exact ⟨.rootDelete, by rw [validateIds, if_pos ha]⟩
    · rw [validateIds, if_neg ha]
      cases hf : findNode s a with
      | none => exact ⟨.notFound a, rfl⟩
      | some n =>
        dsimp only
        apply ih
        rcases List.mem_cons.mp hi with h' | h'
        · exact absurd (h' ▸ hiz) ha
        · exact ⟨i, h', hiz⟩

theorem validateIds_notFound (s : Store) :
    ∀ ids : List Int, (∀ i ∈ ids, i ≠ 0) → (∃ i ∈ ids, findNode s i = none) →
      ∃ i, validateIds s ids = .error (.notFound i) := by
  intro ids
  induction ids with
  | nil => rintro _ ⟨i, hi, _⟩; simp at hi
  | cons a t ih =>
    rintro hz ⟨i, hi, hmiss⟩
    rw [validateIds, if_neg (hz a (List.mem_cons_self a t))]
    cases hf : findNode s a with
    | none => exact ⟨a, rfl⟩
    | some n =>
      dsimp only
      apply ih (fun j hj => hz j (List.mem_cons_of_mem a hj))
      rcases List.mem_cons.mp hi with h' | h'
      · rw [h'] at hmiss
        rw [hmiss] at hf
        exact absurd hf (by simp)
      · exact ⟨i, h', hmiss⟩

theorem validateIds_ok (s : Store) :
    ∀ ids : List Int, (∀ i ∈ ids, i ≠ 0) → (∀ i ∈ ids, findNode s i ≠ none) →
      validateIds s ids = .ok () := by
  intro ids
  induction ids with
  | nil => intro _ _; rfl
  | cons a t ih =>
    intro hz hex
    rw [validateIds, if_neg (hz a (List.mem_cons_self a t))]
    cases hf : findNode s a with
    | none => exact absurd hf (hex a (List.mem_cons_self a t))
    | some n =>
      dsimp only
      exact ih (fun j hj => hz j (List.mem_cons_of_mem a hj))
        (fun j hj => hex j (List.mem_cons_of_mem a hj))

/-- **C7.**  `delete(ids)` rejects (an error, with no store change — the
whole list is validated before anything is deleted) whenever some id is the
root sentinel `0`, and fails with `NotFoundError` (no zeros present) whenever
some id has no node; otherwise it succeeds in one transaction, and the
resulting store keeps exactly the nodes that are neither named nor — per the
store's cascade rule, modelled from the spec via the §4.2 ancestor walk —
descendants of a named node; the history table is untouched. -/
theorem c7_delete_validation_and_cascade (s : Store) (ids : List Int) :
    ((∃ i ∈ ids, i = 0) → ∃ e, delete_nodes s ids = .error e) ∧
    ((∀ i ∈ ids, i ≠ 0) → (∃ i ∈ ids, findNode s i = none) →
      ∃ i, delete_nodes s ids = .error (.notFound i)) ∧
    (ids ≠ [] → (∀ i ∈ ids, i ≠ 0) → (∀ i ∈ ids, findNode s i ≠ none) →
      ∃ s', delete_nodes s ids = .ok s' ∧ s'.history = s.history ∧
        ∀ n : Node, n ∈ s'.nodes ↔
          (n ∈ s.nodes ∧ ∀ i ∈ ids, is_descendant s i n.id = false)) := by
  refine ⟨?_, ?_, ?_⟩
  · rintro hz
    have hne : ids ≠ [] := by
      rintro rfl
      rcases hz with ⟨i, hi, _⟩
      simp at hi
    obtain ⟨e, he⟩ := validateIds_error_of_zero s ids hz
    refine ⟨e, ?_⟩
    rw [delete_nodes, if_neg hne, he]
  · intro hz hmiss
    have hne : ids ≠ [] := by
      rintro rfl
      rcases hmiss with ⟨i, hi, _⟩
      simp at hi
    obtain ⟨i, he⟩ := validateIds_notFound s ids hz hmiss
    refine ⟨i, ?_⟩
    rw [delete_nodes, if_neg hne, he]
  · intro hne hz hex
    rw [delete_nodes, if_neg hne, validateIds_ok s ids hz hex]
    refine ⟨_, rfl, rfl, ?_⟩
    intro n
    constructor
    · intro hn
      have := List.mem_filter.mp hn
      refine ⟨this.1, ?_⟩
      have hb := this.2
      intro i hi
      by_contra hc
      have : node_marked s ids n = true := by
        rw [node_marked, List.any_eq_true]
        exact ⟨i, hi, by simpa using hc⟩
      simp [this] at hb
    · rintro ⟨hn, hall⟩
      apply List.mem_filter.mpr
      refine ⟨hn, ?_⟩
      have : node_marked s ids n = false := by
        rw [node_marked]
        rw [List.any_eq_false]
        intro i hi
        simp [hall i hi]
      simp [this]

/-- Store for the C7 witness: folder 1 with two child notes 2 and 3. -/
def c7s : Store :=
  { nodes :=
      [ { baseNode with id := 1, type := "folder".data, title := "f".data },
        { baseNode with
            id := 2, type := "note".data, title := "a".data,
            parent_id := some 1 },
        { baseNode with
            id := 3, type := "note".data, title := "b".data,
            parent_id := some 1 } ]
    history := [] }

/-- Witness for `c7_delete_validation_and_cascade`: deleting folder 1 removes
it and its two child notes in one step. -/
theorem c7_delete_witness :
    ∃ s', delete_nodes c7s [1] = .ok s' ∧ s'.history = c7s.history ∧
      ∀ n : Node, n ∈ s'.nodes ↔
        (n ∈ c7s.nodes ∧ ∀ i ∈ [(1 : Int)], is_descendant c7s i n.id = false) :=
  (c7_delete_validation_and_cascade c7s [1]).2.2 (by decide) (by decide)
    (by decide)

/-! ## C9: search previews (`highlight_text`, `build_search_result`)

`highlight_text` escapes the (truncated) text and the keyword,
then substitutes every leftmost non-overlapping case-insensitive occurrence
of the escaped keyword by the occurrence wrapped in the highlight marker
(the semantics of `re.sub` with `re.IGNORECASE`; case-insensitivity is
ASCII-modelled). -/

/-- The opening highlight marker `<span class="search-highlight">`. -/
def hlOpen : Str := "<span class=\"search-highlight\">".data

/-- The closing highlight marker. -/
def hlClose : Str := "</span>".data

/-- Case-insensitive prefix test. -/
def startsCI (pat s : Str) : Bool := (toLowerStr pat).isPrefixOf (toLowerStr s)

/-- `pattern.sub(wrap, escaped_text)` with `re.IGNORECASE`: scan left to
right; at a match, wrap the matched original-case text and continue after
it; otherwise keep the character.  (The Python pattern is the escaped
keyword, which is non-empty whenever the keyword is.) -/
def subScan (pat : Str) : Str → Str
  | [] => []
  | c :: t =>
    if h : startsCI pat (c :: t) = true ∧ pat ≠ [] then
      hlOpen ++ (c :: t).take pat.length ++ hlClose ++
        subScan pat ((c :: t).drop pat.length)
    else c :: subScan pat t
termination_by s => s.length
decreasing_by
  · simp only [List.length_drop, List.length_cons]
    have hp1 : 1 ≤ pat.length := by
      cases pat with
      | nil => exact absurd rfl h.2
      | cons _ _ => simp
    omega
  · simp

/-- `highlight_text` (lines 235–263).  The early branches return the escaped
text untruncated; otherwise the first 500 characters (plus a `'...'` marker
appended *before* escaping when truncated) are escaped and highlighted, and
the truncation ellipsis is appended once more. -/
def highlight_text (text keyword : Str) : Str :=
  if text = [] then []
  else if keyword = [] then escape_html text
  else if ¬ occursCI text keyword then escape_html text
  else
    let text_to_process :=
      text.take 500 ++ (if 500 < text.length then "...".data else [])
    let result := subScan (escapeHtml keyword) (escapeHtml text_to_process)
    if 500 < text.length then result ++ "...".data else result

/-- The preview built by `build_search_result` (lines 500–509): the full
title for title matches, the full tags string for tag matches, but only the
first 150 characters of usage for usage matches. -/
def previewOf (n : Node) (keyword : Str) (field : Str) : Str :=
  if field = "title".data then highlight_text n.title keyword
  else if field = "usage".data ∧ n.usage ≠ [] then
    highlight_text (n.usage.take 150) keyword
  else if field = "tags".data ∧ n.tags ≠ [] then
    highlight_text n.tags keyword
  else if n.usage ≠ [] then highlight_text (n.usage.take 150) keyword
  else []

/-- `Node.usage.ilike(f'%{keyword}%')`: the usage-field search match. -/
def usage_match (n : Node) (keyword : Str) : Bool := occursCI n.usage keyword

/-- A note whose usage contains the keyword only at positions 150–151. -/
def c9node : Node :=
  { baseNode with
      id := 1, type := "note".data, title := "t".data,
      usage := List.replicate 150 'a' ++ "zz".data }

/-- **C9, counterexample.**  The claim says every case-insensitive occurrence
of the keyword within the first 500 characters of the matched field is
wrapped in the marker.  For a usage-field search result the preview is built
from `node.usage[:150]` only: a keyword occurring at position 150 — well
inside the first 500 characters of the field — is matched by the search
query (ilike on the full column) but the preview contains no marker at
all. -/
theorem c9_counterexample :
    usage_match c9node "zz".data = true ∧
    occursCI (c9node.usage.take 500) "zz".data = true ∧
    containsSub (previewOf c9node "zz".data "usage".data) hlOpen = false := by
  decide

/-- The unhighlighted interleaving of a gap/match decomposition. -/
def joinPlain (L : List (Str × Str)) : Str :=
  (L.map (fun p => p.1 ++ p.2)).foldr (fun a b => a ++ b) []

/-- The highlighted interleaving: each match wrapped in the markers. -/
def joinMarked (L : List (Str × Str)) : Str :=
  (L.map (fun p => p.1 ++ hlOpen ++ p.2 ++ hlClose)).foldr (fun a b => a ++ b) []

theorem joinPlain_cons (a : Str × Str) (L : List (Str × Str)) :
    joinPlain (a :: L) = (a.1 ++ a.2) ++ joinPlain L := by
  simp [joinPlain]

theorem joinMarked_cons (a : Str × Str) (L : List (Str × Str)) :
    joinMarked (a :: L) = (a.1 ++ hlOpen ++ a.2 ++ hlClose) ++ joinMarked L := by
  simp [joinMarked]

theorem occursCI_nil (pat : Str) (hp : pat ≠ []) : occursCI [] pat = false := by
  rw [occursCI, toLowerStr, List.map_nil, containsSub]
  cases pat with
  | nil => exact absurd rfl hp
  | cons c cs => simp [toLowerStr]

theorem occursCI_cons (c : Char) (t pat : Str) :
    occursCI (c :: t) pat = (startsCI pat (c :: t) || occursCI t pat) := by
  rw [occursCI, toLowerStr, List.map_cons, containsSub, startsCI, occursCI,
    toLowerStr, toLowerStr, toLowerStr, List.map_cons]

theorem startsCI_false_mono (pat u v : Str) (huv : u <+: v)
    (hv : startsCI pat v = false) : startsCI pat u = false := by
  apply Bool.eq_false_iff.mpr
  intro hu
  apply Bool.eq_false_iff.mp hv
  rw [startsCI, List.isPrefixOf_iff_prefix] at hu ⊢
  exact hu.trans (huv.map Char.toLower)

theorem take_of_startsCI (pat s : Str) (h : startsCI pat s = true) :
    toLowerStr (s.take pat.length) = toLowerStr pat := by
  rw [startsCI, List.isPrefixOf_iff_prefix] at h
  obtain ⟨r, hr⟩ := h
  calc toLowerStr (s.take pat.length)
      = (toLowerStr s).take pat.length := List.map_take _ _ _
    _ = (toLowerStr pat ++ r).take pat.length := by rw [hr]
    _ = (toLowerStr pat ++ r).take (toLowerStr pat).length := by
        rw [toLowerStr, List.length_map]
    _ = toLowerStr pat := List.take_left _ _

/-- The decomposition produced by `subScan`: the input splits into
occurrence-free gaps and case-insensitive matches of the pattern; the output
is the same split with each match wrapped in the markers. -/
theorem subScan_decomp (pat : Str) (hp : pat ≠ []) :
    ∀ (fuel : Nat) (s : Str), s.length ≤ fuel →
      ∃ L g, s = joinPlain L ++ g ∧
        subScan pat s = joinMarked L ++ g ∧
        (∀ p ∈ L, toLowerStr p.2 = toLowerStr pat) ∧
        (∀ p ∈ L, occursCI p.1 pat = false) ∧
        occursCI g pat = false := by
  intro fuel
  induction fuel with
  | zero =>
    intro s hs
    have hnil : s = [] := List.eq_nil_of_length_eq_zero (Nat.le_zero.mp hs)
    subst hnil
    exact ⟨[], [], rfl, by rw [subScan]; simp [joinMarked], by simp, by simp, occursCI_nil pat hp⟩
  | succ f ih =>
    intro s hs
    cases s with
    | nil => exact ⟨[], [], rfl, by rw [subScan]; simp [joinMarked], by simp, by simp, occursCI_nil pat hp⟩
    | cons c t =>
      rw [subScan]
      by_cases hmatch : startsCI pat (c :: t) = true ∧ pat ≠ []
      · rw [dif_pos hmatch]
        have hp1 : 1 ≤ pat.length := by
          cases pat with
          | nil => exact absurd rfl hp
          | cons _ _ => simp
        have hlen : ((c :: t).drop pat.length).length ≤ f := by
          simp only [List.length_drop, List.length_cons]
          simp only [List.length_cons] at hs
          omega
        obtain ⟨L, g, he1, he2, hciL, hgapL, hgap⟩ := ih _ hlen
        refine ⟨([], (c :: t).take pat.length) :: L, g, ?_, ?_, ?_, ?_, hgap⟩
        · rw [joinPlain_cons]
          dsimp only
          rw [List.nil_append, List.append_assoc, ← he1,
            List.take_append_drop]
        · rw [joinMarked_cons, he2]
          dsimp only
          simp [List.append_assoc]
        · intro p hpm
          rcases List.mem_cons.mp hpm with h' | h'
          · rw [h']
            exact take_of_startsCI pat (c :: t) hmatch.1
          · exact hciL p h'
        · intro p hpm
          rcases List.mem_cons.mp hpm with h' | h'
          · rw [h']
            exact occursCI_nil pat hp
          · exact hgapL p h'
      · rw [dif_neg hmatch]
        have hnost : startsCI pat (c :: t) = false :=
          Bool.eq_false_iff.mpr (fun hA => hmatch ⟨hA, hp⟩)
        have hlen : t.length ≤ f := by
          simp only [List.length_cons] at hs
          omega
        obtain ⟨L, g, he1, he2, hciL, hgapL, hgap⟩ := ih t hlen
        cases L with
        | nil =>
          simp only [joinPlain, List.map_nil, List.foldr_nil,
            List.nil_append] at he1
          simp only [joinMarked, List.map_nil, List.foldr_nil,
            List.nil_append] at he2
          refine ⟨[], c :: g, ?_, ?_, by simp, by simp, ?_⟩
          · show c :: t = [] ++ (c :: g)
            rw [List.nil_append, he1]
          · show c :: subScan pat t = [] ++ (c :: g)
            rw [List.nil_append, he2]
          · rw [occursCI_cons]
            have : startsCI pat (c :: g) = false := by
              rw [← he1]
              exact hnost
            rw [this, hgap]
            rfl
        | cons a Lrest =>
          refine ⟨(c :: a.1, a.2) :: Lrest, g, ?_, ?_, ?_, ?_, hgap⟩
          · rw [joinPlain_cons]
            dsimp only
            rw [he1, joinPlain_cons]
            simp [List.append_assoc]
          · rw [joinMarked_cons]
            dsimp only
            rw [he2, joinMarked_cons]
            simp [List.append_assoc]
          · intro p hpm
            rcases List.mem_cons.mp hpm with h' | h'
            · rw [h']
              exact hciL a (List.mem_cons_self a Lrest)
            · exact hciL p (List.mem_cons_of_mem a h')
          · intro p hpm
            rcases List.mem_cons.mp hpm with h' | h'
            · rw [h']
              show occursCI (c :: a.1) pat = false
              rw [occursCI_cons]
              have hpre : (c :: a.1) <+: (c :: t) := by
                refine ⟨a.2 ++ (joinPlain Lrest ++ g), ?_⟩
                rw [he1, joinPlain_cons]
                simp [List.append_assoc]
              rw [startsCI_false_mono pat _ _ hpre hnost,
                hgapL a (List.mem_cons_self a Lrest)]
              rfl
            · exact hgapL p (List.mem_cons_of_mem a h')

theorem escapeChar_ne_nil (c : Char) : escapeChar c ≠ [] := by
  rw [escapeChar]
  split
  · decide
  · split
    · decide
    · split
      · decide
      · split
        · decide
        · split
          · decide
          · simp

theorem escapeHtml_ne_nil (s : Str) (hs : s ≠ []) : escapeHtml s ≠ [] := by
  cases s with
  | nil => exact absurd rfl hs
  | cons c t =>
    rw [escapeHtml, List.flatMap_cons]
    intro hc
    exact escapeChar_ne_nil c (List.append_eq_nil.mp hc).1

/-- **C9 (amended).**  The preview of a search result is built by
`highlight_text` from the matched field's *excerpt* — the full title for
title matches, the full tags string for tag matches, but only the first 150
characters of usage for usage matches — and the excerpt is further truncated
to 500 characters.  Whenever the keyword occurs (case-insensitively) in the
excerpt, the preview decomposes into HTML-escaped occurrence-free gaps and
the leftmost non-overlapping case-insensitive matches of the escaped keyword
wrapped in the highlight marker: the content is escaped before the markers
are inserted, and no complete occurrence of the keyword is left unwrapped in
any gap. -/
theorem c9_highlight_amended :
    (∀ (n : Node) (keyword : Str),
      previewOf n keyword "title".data = highlight_text n.title keyword) ∧
    (∀ (n : Node) (keyword : Str), n.usage ≠ [] →
      previewOf n keyword "usage".data =
        highlight_text (n.usage.take 150) keyword) ∧
    (∀ (n : Node) (keyword : Str), n.tags ≠ [] →
      previewOf n keyword "tags".data = highlight_text n.tags keyword) ∧
    (∀ (text keyword : Str), keyword ≠ [] → occursCI text keyword = true →
      ∃ L g,
        escapeHtml (text.take 500 ++
          (if 500 < text.length then "...".data else [])) =
          joinPlain L ++ g ∧
        highlight_text text keyword = (joinMarked L ++ g) ++
          (if 500 < text.length then "...".data else []) ∧
        (∀ p ∈ L, toLowerStr p.2 = toLowerStr (escapeHtml keyword)) ∧
        (∀ p ∈ L, occursCI p.1 (escapeHtml keyword) = false) ∧
        occursCI g (escapeHtml keyword) = false) := by
  refine ⟨?_, ?_, ?_, ?_⟩
  · intro n keyword
    rw [previewOf, if_pos rfl]
  · intro n keyword hu
    rw [previewOf, if_neg (by decide), if_pos ⟨rfl, hu⟩]
  · intro n keyword ht
    rw [previewOf, if_neg (by decide),
      if_neg (by rintro ⟨hc, _⟩; exact absurd hc (by decide)),
      if_pos ⟨rfl, ht⟩]
  · intro text keyword hkw hocc
    have htext : text ≠ [] := by
      intro hc
      rw [hc, occursCI_nil keyword hkw] at hocc
      exact absurd hocc (by decide)
    have hepat : escapeHtml keyword ≠ [] := escapeHtml_ne_nil keyword hkw
    have hnotnot : ¬ ¬ occursCI text keyword = true := fun hc => hc hocc
    rw [highlight_text, if_neg htext, if_neg hkw, if_neg hnotnot]
    dsimp only
    by_cases h5 : 500 < text.length
    · simp only [if_pos h5]
      obtain ⟨L, g, he1, he2, hci, hgapL, hgap⟩ :=
        subScan_decomp (escapeHtml keyword) hepat
          (escapeHtml (text.take 500 ++ "...".data)).length
          (escapeHtml (text.take 500 ++ "...".data)) le_rfl
      exact ⟨L, g, he1, by rw [he2], hci, hgapL, hgap⟩
    · simp only [if_neg h5]
      obtain ⟨L, g, he1, he2, hci, hgapL, hgap⟩ :=
        subScan_decomp (escapeHtml keyword) hepat
          (escapeHtml (text.take 500 ++ [])).length
          (escapeHtml (text.take 500 ++ [])) le_rfl
      exact ⟨L, g, he1, by rw [he2, List.append_nil], hci, hgapL, hgap⟩

/-- Witness for `c9_highlight_amended`: the usage preview is built from the
150-character excerpt, and highlighting `"ab"` for keyword `"a"` decomposes
into escaped gaps and wrapped matches. -/
theorem c9_highlight_witness :
    (previewOf c9node "q".data "usage".data =
      highlight_text (c9node.usage.take 150) "q".data) ∧
    (∃ L g,
      escapeHtml ("ab".data.take 500 ++
        (if 500 < "ab".data.length then "...".data else [])) =
        joinPlain L ++ g ∧
      highlight_text "ab".data "a".data = (joinMarked L ++ g) ++
        (if 500 < "ab".data.length then "...".data else []) ∧
      (∀ p ∈ L, toLowerStr p.2 = toLowerStr (escapeHtml "a".data)) ∧
      (∀ p ∈ L, occursCI p.1 (escapeHtml "a".data) = false) ∧
      occursCI g (escapeHtml "a".data) = false) :=
  ⟨c9_highlight_amended.2.1 c9node "q".data (by decide),
   c9_highlight_amended.2.2.2 "ab".data "a".data (by decide) (by decide)⟩

end KBApp
